import Mathlib

/-!
Shallow embedding of the core of the `orca` repository, and theorems
checking the natural-language specification against it.

Embedded source files:
  * `packages/world-models/src/fire_sim.py` (fire spread simulator)
  * `packages/routing/src/graph.py` (building graph + overlays)
  * `packages/routing/src/optimizer.py` (fire-aware route solver)
  * `apps/api/src/services/metrics.py` (survivability window)
  * `packages/world-models/src/personnel.py` (personnel recommendation)
  * `apps/api/src/services/orchestrator.py` (team consensus + upstream wait)

Numbers that are Python floats are modelled as rationals; real arithmetic
in the source is exact decimal arithmetic here.  Python string `.lower()`
and the substring operator `in` are modelled on character lists.
-/

namespace Orca

/-! ## String helpers: Python `.lower()` and the `in` substring operator -/

/-- Model of Python `str.lower()` on a list of characters. -/
def lowerChars (s : List Char) : List Char := s.map Char.toLower

/-- True when `needle` occurs at the very front of `hay`. -/
def startsAt : List Char → List Char → Bool
  | [], _ => true
  | _ :: _, [] => false
  | a :: as, b :: bs => a == b && startsAt as bs

/-- Model of Python `needle in hay` (substring containment). -/
def subIn (needle : List Char) : List Char → Bool
  | [] => needle.isEmpty
  | c :: rest => startsAt needle (c :: rest) || subIn needle rest

/-- Model of Python `a.lower() in b.lower()`. -/
def lowerIn (a b : String) : Bool :=
  subIn (lowerChars a.data) (lowerChars b.data)

/-! ## `packages/world-models/src/fire_sim.py` -/

/-- Constant `BASE_SPREAD_RATE = 0.05`. -/
def BASE_SPREAD_RATE : ℚ := 5 / 100

/-- Constant `DOOR_ADJACENCY_FACTOR = 0.7`. -/
def DOOR_ADJACENCY_FACTOR : ℚ := 7 / 10

/-- Constant `VERTICAL_SPREAD_MULTIPLIER = 1.8`. -/
def VERTICAL_SPREAD_MULTIPLIER : ℚ := 9 / 5

/-- Constant `FLASHOVER_THRESHOLD = 0.8`. -/
def FLASHOVER_THRESHOLD : ℚ := 4 / 5

/-- Dataclass `Room` from `fire_sim.py`. -/
structure Room where
  name : String
  fire_intensity : ℚ := 0
  has_door_to : List String := []
  has_stairwell : Bool := false
  fuel_level : String := "low"
  is_exterior : Bool := false
deriving Repr, DecidableEq

/-- Model of `FUEL_ACCELERATION.get(room.fuel_level, 1.0)`. -/
def fuelAcceleration (level : String) : ℚ :=
  if level = "low" then 1
  else if level = "medium" then 3 / 2
  else if level = "high" then 5 / 2
  else 1

/-- Function `compute_room_spread_rate(room, adjacent_rooms)`. -/
def compute_room_spread_rate (room : Room) (adjacent_rooms : List Room) : ℚ :=
  let base := BASE_SPREAD_RATE
  let rate := base * fuelAcceleration room.fuel_level
  adjacent_rooms.foldl
    (fun rate adj =>
      if adj.fire_intensity > 3 / 10 then
        let contribution := adj.fire_intensity * DOOR_ADJACENCY_FACTOR * base
        let contribution :=
          if room.has_stairwell || adj.has_stairwell then
            contribution * VERTICAL_SPREAD_MULTIPLIER
          else contribution
        rate + contribution
      else rate)
    rate

/-- Model of `room_map = {r.name: r for r in rooms}` followed by
`room_map[n]`: a Python dict comprehension keeps the last entry for a
duplicated key. -/
def lookupRoom (rooms : List Room) (n : String) : Option Room :=
  (rooms.filter (fun r => r.name == n)).getLast?

/-- Adjacent-room list `[room_map[a] for a in room.has_door_to if a in room_map]`
used by `predict_fire_spread`. -/
def adjacentOf (rooms : List Room) (room : Room) : List Room :=
  room.has_door_to.filterMap (lookupRoom rooms)

/-- The per-minute intensity sequence of one room inside
`predict_fire_spread`: `current = min(1.0, current + rate)` with the rate
recomputed from a copy of the room carrying the current intensity. -/
def intensitySeq (room : Room) (adjacent : List Room) : ℕ → ℚ
  | 0 => room.fire_intensity
  | t + 1 =>
    let current := intensitySeq room adjacent t
    let rate := compute_room_spread_rate { room with fire_intensity := current } adjacent
    min 1 (current + rate)

/-- The `intensities` list accumulated by the loop in `predict_fire_spread`
(`time_steps_min` iterations, plus the starting value). -/
def intensList (room : Room) (adjacent : List Room) (time_steps_min : ℕ) : List ℚ :=
  (List.range (time_steps_min + 1)).map (intensitySeq room adjacent)

/-- First index of the list whose entry strictly exceeds `thr`; models the
`for t, intensity in enumerate(intensities)` scan that sets
`time_to_danger` / `time_to_flashover`. -/
def firstAbove (thr : ℚ) : List ℚ → Option ℕ
  | [] => none
  | x :: xs => if thr < x then some 0 else (firstAbove thr xs).map (· + 1)

/-- Dataclass `SpreadPrediction`. -/
structure SpreadPrediction where
  room_name : String
  current_intensity : ℚ
  predicted_intensity_5min : ℚ
  predicted_intensity_10min : ℚ
  time_to_danger_min : Option ℕ
  time_to_flashover_min : Option ℕ
  risk_factors : List String
deriving Repr, DecidableEq

/-- Body of the per-room loop of `predict_fire_spread`. -/
def predictRoom (rooms : List Room) (time_steps_min : ℕ) (room : Room) : SpreadPrediction :=
  let adjacent := adjacentOf rooms room
  let intensities := intensList room adjacent time_steps_min
  { room_name := room.name
    current_intensity := room.fire_intensity
    predicted_intensity_5min := intensities.getD (min 5 (intensities.length - 1)) 0
    predicted_intensity_10min := intensities.getD (min 10 (intensities.length - 1)) 0
    time_to_danger_min := firstAbove (3 / 5) intensities
    time_to_flashover_min := firstAbove FLASHOVER_THRESHOLD intensities
    risk_factors :=
      (if room.fuel_level = "high" then ["high fuel load accelerates spread"] else []) ++
      (if room.has_stairwell then ["stairwell enables vertical spread"] else []) ++
      (if adjacent.any (fun adj => adj.fire_intensity > 1 / 2) then
        ["adjacent room has active fire"] else []) ++
      (if room.fire_intensity > FLASHOVER_THRESHOLD then
        ["flashover risk - room fully involved"] else []) }

/-- Function `predict_fire_spread(rooms, time_steps_min=10)`. -/
def predict_fire_spread (rooms : List Room) (time_steps_min : ℕ := 10) :
    List SpreadPrediction :=
  rooms.map (predictRoom rooms time_steps_min)

/-! ## Adapter from vision output to rooms (`build_spread_timeline`, and the
room construction in `compute_survivability_window`, which is the same code) -/

/-- One entry of `fire_locations` (`fl.get("label", "")`, `fl.get("intensity", 0.0)`). -/
structure FireLocation where
  label : String := ""
  intensity : ℚ := 0
deriving Repr, DecidableEq

/-- One entry of `fuel_sources` (`fs.get("location_label", "")`,
`fs.get("flammability", "medium")` — a missing flammability key is `none`). -/
structure FuelSource where
  location_label : String := ""
  flammability : Option String := none
deriving Repr, DecidableEq

/-- The fuzzy label match used by the adapters:
`rd["name"].lower() in label.lower() or label.lower() in rd["name"].lower()`. -/
def matchLabel (roomName label : String) : Bool :=
  lowerIn roomName label || lowerIn label roomName

/-- The fuel-matching loop: first matching fuel source wins, default `"low"`. -/
def roomFuelOf (fuel_sources : List FuelSource) (name : String) : String :=
  match fuel_sources.find? (fun fs => matchLabel name fs.location_label) with
  | some fs => fs.flammability.getD "medium"
  | none => "low"

/-- The intensity-matching loop: running max over matching fire locations. -/
def matchedIntensity (fire_locations : List FireLocation) (name : String) : ℚ :=
  fire_locations.foldl
    (fun acc fl => if matchLabel name fl.label then max acc fl.intensity else acc) 0

/-- Initial room intensity including the ambient-heat rule:
`if room_intensity == 0.0 and severity >= 5: room_intensity = severity / 20.0`. -/
def initialIntensity (fire_locations : List FireLocation) (severity : ℚ)
    (name : String) : ℚ :=
  let room_intensity := matchedIntensity fire_locations name
  if room_intensity = 0 ∧ severity ≥ 5 then severity / 20 else room_intensity

/-- The `fire_severity_data` dict fields read by the adapters
(defaults: `severity` 0, empty lists). -/
structure FireSeverityData where
  severity : ℚ := 0
  fire_locations : List FireLocation := []
  fuel_sources : List FuelSource := []
deriving Repr, DecidableEq

/-- One entry of a building layout room list (`rd["name"]`, `rd.get("adjacent", [])`,
`rd.get("has_stairwell", False)`, `rd.get("is_exterior", False)`). -/
structure RoomData where
  name : String
  adjacent : List String := []
  has_stairwell : Bool := false
  is_exterior : Bool := false
deriving Repr, DecidableEq

/-- The room-construction loop shared verbatim by `build_spread_timeline`
(`fire_sim.py` lines 164-192) and `compute_survivability_window`
(`metrics.py` lines 151-178). -/
def timelineRooms (fire : FireSeverityData) (rooms_data : List RoomData) : List Room :=
  rooms_data.map fun rd =>
    { name := rd.name
      fire_intensity := initialIntensity fire.fire_locations fire.severity rd.name
      has_door_to := rd.adjacent
      has_stairwell := rd.has_stairwell
      fuel_level := roomFuelOf fire.fuel_sources rd.name
      is_exterior := rd.is_exterior }

/-- Function `build_spread_timeline` up to its JSON reshaping: the predictions
it derives (the trailing dict conversion with display rounding is not
modelled; no claim reads it). -/
def build_spread_timeline (fire : FireSeverityData) (rooms_data : List RoomData) :
    List SpreadPrediction :=
  predict_fire_spread (timelineRooms fire rooms_data) 10

/-! ## Decimal rounding (Python `round(x, d)`, half-to-even) -/

/-- Round a rational to the nearest integer, ties to even. -/
def roundHalfEven (q : ℚ) : ℤ :=
  let f := ⌊q⌋
  let r := q - f
  if r < 1 / 2 then f
  else if 1 / 2 < r then f + 1
  else if f % 2 = 0 then f else f + 1

/-- Model of Python `round(q, d)`. -/
def round_dp (d : ℕ) (q : ℚ) : ℚ :=
  (roundHalfEven (q * 10 ^ d) : ℚ) / 10 ^ d

/-! ## `apps/api/src/services/metrics.py`: survivability window -/

/-- Constant `SIM_HORIZON_MIN = 30`. -/
def SIM_HORIZON_MIN : ℕ := 30

/-- Dataclass `SurvivabilityWindow`. -/
structure SurvivabilityWindow where
  minutes_remaining : Option ℕ
  viable : Bool
  worst_room : Option String
  worst_room_intensity : ℚ
deriving Repr, DecidableEq

/-- The first `if` of the worst-room scan in `compute_survivability_window`:
track the earliest `time_to_danger` (state is
`(worst_room, worst_intensity, earliest_danger)`). -/
def survStepDanger (s : Option String × ℚ × Option ℕ) (pred : SpreadPrediction) :
    Option String × ℚ × Option ℕ :=
  match pred.time_to_danger_min with
  | some t =>
    match s.2.2 with
    | none => (some pred.room_name, pred.current_intensity, some t)
    | some e =>
      if t < e then (some pred.room_name, pred.current_intensity, some t) else s
  | none => s

/-- The second `if` of the scan: intensity-based fallback while no danger
crossing has been seen. -/
def survStepWorst (s : Option String × ℚ × Option ℕ) (pred : SpreadPrediction) :
    Option String × ℚ × Option ℕ :=
  if s.2.1 < pred.current_intensity ∧ s.1 = none then
    (some pred.room_name, pred.current_intensity, s.2.2)
  else s

/-- One iteration of the worst-room scan (rooms off the path are skipped). -/
def survStep (path : List String) (s : Option String × ℚ × Option ℕ)
    (pred : SpreadPrediction) : Option String × ℚ × Option ℕ :=
  if path.contains pred.room_name then survStepWorst (survStepDanger s pred) pred
  else s

/-- Function `compute_survivability_window(path, fire_data, rooms_data)`. -/
def compute_survivability_window (path : List String) (fire : FireSeverityData)
    (rooms_data : List RoomData) : SurvivabilityWindow :=
  if path.isEmpty then
    { minutes_remaining := some 0, viable := false, worst_room := none,
      worst_room_intensity := 0 }
  else
    let rooms := timelineRooms fire rooms_data
    let predictions := predict_fire_spread rooms SIM_HORIZON_MIN
    let scan := predictions.foldl (survStep path) (none, 0, none)
    { minutes_remaining := scan.2.2
      viable := match scan.2.2 with | none => true | some e => decide (0 < e)
      worst_room := scan.1
      worst_room_intensity := round_dp 3 scan.2.1 }

/-! ## `packages/routing/src/graph.py` -/

/-- Node attributes stored by `build_building_graph` (`.get` defaults 0 / False). -/
structure NodeAttrs where
  fire_intensity : ℚ := 0
  structural_risk : ℚ := 0
  smoke_risk : ℚ := 0
  is_exterior : Bool := false
  has_stairwell : Bool := false
deriving Repr, DecidableEq

/-- One room dict passed to `build_building_graph`. -/
structure RoomSpec where
  name : String
  adjacent : List String := []
  fire_intensity : ℚ := 0
  structural_risk : ℚ := 0
  smoke_risk : ℚ := 0
  is_exterior : Bool := false
  has_stairwell : Bool := false
deriving Repr, DecidableEq

/-- The networkx `DiGraph` as used here: an insertion-ordered node map and a
weighted edge list. -/
structure BGraph where
  nodes : List (String × NodeAttrs)
  edges : List (String × String × ℚ)
deriving Repr, DecidableEq

/-- The edge weight expression `1.0 + (fire * 10) + (structural * 5) + (smoke * 3)`. -/
def weightFormula (a : NodeAttrs) : ℚ :=
  1 + a.fire_intensity * 10 + a.structural_risk * 5 + a.smoke_risk * 3

/-- Model of `graph.add_node`: update attributes in place, or append. -/
def upsertNode : List (String × NodeAttrs) → String → NodeAttrs →
    List (String × NodeAttrs)
  | [], n, a => [(n, a)]
  | (m, b) :: rest, n, a =>
    if m == n then (n, a) :: rest else (m, b) :: upsertNode rest n a

/-- Model of `graph.add_edge`: update weight in place, or append. -/
def upsertEdge : List (String × String × ℚ) → String → String → ℚ →
    List (String × String × ℚ)
  | [], u, v, w => [(u, v, w)]
  | (x, y, z) :: rest, u, v, w =>
    if x == u && y == v then (u, v, w) :: rest else (x, y, z) :: upsertEdge rest u v w

/-- Attributes of `rooms` entry `r` as stored on its node. -/
def attrsOfRoom (r : RoomSpec) : NodeAttrs :=
  { fire_intensity := r.fire_intensity, structural_risk := r.structural_risk,
    smoke_risk := r.smoke_risk, is_exterior := r.is_exterior,
    has_stairwell := r.has_stairwell }

/-- Function `build_building_graph(rooms)` (the Python default layout argument
`_default_rooms()` is a plain default argument not used by any claim). -/
def build_building_graph (rooms : List RoomSpec) : BGraph :=
  let nodes := rooms.foldl (fun ns r => upsertNode ns r.name (attrsOfRoom r)) []
  let edges := rooms.foldl
    (fun es room =>
      room.adjacent.foldl
        (fun es adj_name =>
          match rooms.find? (fun r => r.name == adj_name) with
          | some dest => upsertEdge es room.name adj_name (weightFormula (attrsOfRoom dest))
          | none => es)
        es)
    []
  { nodes := nodes, edges := edges }

/-- Lookup of `graph.nodes[n]` attributes (total, defaulting like `.get`). -/
def attrOf (g : BGraph) (n : String) : NodeAttrs :=
  ((g.nodes.find? (fun p => p.1 == n)).map Prod.snd).getD {}

/-- The edge-weight recomputation loop ending both overlay functions. -/
def recomputeWeights (g : BGraph) : BGraph :=
  { g with edges := g.edges.map (fun e => (e.1, e.2.1, weightFormula (attrOf g e.2.1))) }

/-- The `fire_data` dict fields read by `apply_fire_data`. -/
structure FireOverlay where
  fire_locations : List FireLocation := []
deriving Repr, DecidableEq

/-- The node-update loop of `apply_fire_data`: bidirectional case-insensitive
substring match, then raise `fire_intensity` by `max`. -/
def applyFireNodes (nodes : List (String × NodeAttrs)) (fls : List FireLocation) :
    List (String × NodeAttrs) :=
  fls.foldl
    (fun ns fl =>
      ns.map (fun p =>
        if lowerIn p.1 fl.label || lowerIn fl.label p.1 then
          (p.1, { p.2 with fire_intensity := max p.2.fire_intensity fl.intensity })
        else p))
    nodes

/-- Function `apply_fire_data(graph, fire_data)`. -/
def apply_fire_data (g : BGraph) (fd : FireOverlay) : BGraph :=
  recomputeWeights { g with nodes := applyFireNodes g.nodes fd.fire_locations }

/-- One entry of `blocked_passages` (`bp.get("passage", "")`,
`bp.get("severity", "partial")`). -/
structure BlockedPassage where
  passage : String := ""
  severity : String := "partial"
deriving Repr, DecidableEq

/-- The `structural_data` dict fields read by `apply_structural_data`. -/
structure StructuralData where
  blocked_passages : List BlockedPassage := []
  collapse_risk : String := "none"
deriving Repr, DecidableEq

/-- Model of `collapse_map.get(collapse, 0.0)`. -/
def collapseMap (s : String) : ℚ :=
  if s = "none" then 0
  else if s = "low" then 1 / 10
  else if s = "moderate" then 3 / 10
  else if s = "high" then 7 / 10
  else if s = "imminent" then 1
  else 0

/-- The blocked-passage loop of `apply_structural_data`: note the match is
`node.lower() in passage.lower()` only — one direction. -/
def applyBlockedPassages (nodes : List (String × NodeAttrs))
    (bps : List BlockedPassage) : List (String × NodeAttrs) :=
  bps.foldl
    (fun ns bp =>
      ns.map (fun p =>
        if lowerIn p.1 bp.passage then
          if bp.severity = "complete" then
            (p.1, { p.2 with structural_risk := 1 })
          else
            (p.1, { p.2 with structural_risk := max p.2.structural_risk (3 / 5) })
        else p))
    nodes

/-- The global collapse-risk floor loop of `apply_structural_data`. -/
def applyCollapseFloor (nodes : List (String × NodeAttrs)) (risk : ℚ) :
    List (String × NodeAttrs) :=
  nodes.map (fun p => (p.1, { p.2 with structural_risk := max p.2.structural_risk risk }))

/-- Function `apply_structural_data(graph, structural_data)`. -/
def apply_structural_data (g : BGraph) (sd : StructuralData) : BGraph :=
  let ns := applyBlockedPassages g.nodes sd.blocked_passages
  let ns := applyCollapseFloor ns (collapseMap sd.collapse_risk)
  recomputeWeights { g with nodes := ns }

/-! ## `packages/routing/src/optimizer.py` -/

/-- Per-room risk entry of the solver output (values display-rounded to 2 dp). -/
structure RoomRisk where
  fire_risk : ℚ
  structural_risk : ℚ
  smoke_risk : ℚ
  combined_risk : ℚ
deriving Repr, DecidableEq

/-- Result dict of `solve_fire_aware`; `total_cost = none` models `float("inf")`. -/
structure RouteResult where
  path : List String
  total_cost : Option ℚ
  risk_level : String
  room_risks : List (String × RoomRisk)
  error : Option String := none
deriving Repr, DecidableEq

/-- Node-name list of a graph (`graph.nodes` membership). -/
def nodeNames (g : BGraph) : List String := g.nodes.map Prod.fst

/-- Outgoing weighted edges of `u`. -/
def edgesFrom (g : BGraph) (u : String) : List (String × ℚ) :=
  g.edges.filterMap (fun e => if e.1 == u then some (e.2.1, e.2.2) else none)

/-- Tentative-distance table entries: `(node, distance, path)`. -/
def lookupEntry (l : List (String × ℚ × List String)) (n : String) :
    Option (String × ℚ × List String) :=
  l.find? (fun e => e.1 == n)

/-- Replace the entry for `n`, or append it. -/
def updateEntry : List (String × ℚ × List String) → String → ℚ → List String →
    List (String × ℚ × List String)
  | [], n, d, p => [(n, d, p)]
  | (m, dm, pm) :: rest, n, d, p =>
    if m == n then (n, d, p) :: rest else (m, dm, pm) :: updateEntry rest n d p

/-- Smallest-distance unvisited entry (ties to the earlier entry). -/
def pickMin (visited : List String) (l : List (String × ℚ × List String)) :
    Option (String × ℚ × List String) :=
  l.foldl
    (fun best e =>
      if visited.contains e.1 then best
      else
        match best with
        | none => some e
        | some b => if e.2.1 < b.2.1 then some e else some b)
    none

/-- Relax one outgoing edge of a settled node. -/
def relaxOne (ds : List (String × ℚ × List String)) (du : ℚ) (pu : List String)
    (vw : String × ℚ) : List (String × ℚ × List String) :=
  match lookupEntry ds vw.1 with
  | none => ds ++ [(vw.1, du + vw.2, pu ++ [vw.1])]
  | some e => if du + vw.2 < e.2.1 then updateEntry ds vw.1 (du + vw.2) (pu ++ [vw.1]) else ds

/-- Main loop of Dijkstra with explicit fuel (one settled node per step). -/
def dijkstraLoop (g : BGraph) : ℕ → List String → List (String × ℚ × List String) →
    List (String × ℚ × List String)
  | 0, _, ds => ds
  | fuel + 1, visited, ds =>
    match pickMin visited ds with
    | none => ds
    | some e =>
      dijkstraLoop g fuel (e.1 :: visited)
        ((edgesFrom g e.1).foldl (fun ds vw => relaxOne ds e.2.1 e.2.2 vw) ds)

/-- Model of the external calls `nx.dijkstra_path` / `nx.dijkstra_path_length`:
shortest path from `o` to `d` and its weight, or `none` exactly when the
library raises `NetworkXNoPath` (destination unreachable). -/
def dijkstraPath (g : BGraph) (o d : String) : Option (List String × ℚ) :=
  let ds := dijkstraLoop g g.nodes.length [] [(o, 0, [o])]
  (lookupEntry ds d).map (fun e => (e.2.2, e.2.1))

/-- Python `max(fire, structural, smoke)`. -/
def combinedRisk (a : NodeAttrs) : ℚ :=
  max (max a.fire_intensity a.structural_risk) a.smoke_risk

/-- The graph `solve_fire_aware` works on: built from the rooms, then the
overlays applied when their data is present (truthy). -/
def solverGraph (fire_data : Option FireOverlay) (structural_data : Option StructuralData)
    (rooms : List RoomSpec) : BGraph :=
  let g := build_building_graph rooms
  let g := match fire_data with | some fd => apply_fire_data g fd | none => g
  match structural_data with | some sd => apply_structural_data g sd | none => g

/-- Method `RouteSolver.solve_fire_aware`.  `fire_data = none` /
`structural_data = none` model the falsy (absent) dicts; the Python room-list
default `_default_rooms()` is a plain default argument not used by any claim. -/
def solve_fire_aware (origin destination : String) (fire_data : Option FireOverlay)
    (structural_data : Option StructuralData) (rooms : List RoomSpec) : RouteResult :=
  let g := solverGraph fire_data structural_data rooms
  if ¬ (nodeNames g).contains origin ∨ ¬ (nodeNames g).contains destination then
    { path := [], total_cost := none, risk_level := "blocked", room_risks := [],
      error := some ("Unknown room: " ++
        (if ¬ (nodeNames g).contains origin then origin else destination)) }
  else
    match dijkstraPath g origin destination with
    | none =>
      { path := [], total_cost := none, risk_level := "blocked", room_risks := [] }
    | some pc =>
      let scan := pc.1.foldl
        (fun (acc : List (String × RoomRisk) × ℚ) room =>
          let a := attrOf g room
          let combined := combinedRisk a
          (acc.1 ++ [(room,
            { fire_risk := round_dp 2 a.fire_intensity
              structural_risk := round_dp 2 a.structural_risk
              smoke_risk := round_dp 2 a.smoke_risk
              combined_risk := round_dp 2 combined })],
           max acc.2 combined))
        ([], 0)
      let risk_level :=
        if scan.2 < 1 / 5 then "safe"
        else if scan.2 < 1 / 2 then "caution"
        else if scan.2 < 4 / 5 then "dangerous"
        else "blocked"
      { path := pc.1, total_cost := some (round_dp 2 pc.2), risk_level := risk_level,
        room_risks := scan.1 }

/-! ## `packages/world-models/src/personnel.py` -/

/-- The `ALARM_THRESHOLDS` table as the (insertion-ordered) pairs
`(level, severity_max)`. -/
def ALARM_THRESHOLDS : List (ℕ × ℤ) := [(1, 3), (2, 5), (3, 7), (4, 9), (5, 10)]

/-- Function `_determine_alarm_level(severity, num_fire_locations, integrity_score)`. -/
def determine_alarm_level (severity : ℤ) (num_fire_locations : ℕ)
    (integrity_score : Option ℤ) : ℕ :=
  let alarm := ((ALARM_THRESHOLDS.find? (fun p => severity ≤ p.2)).map Prod.fst).getD 5
  let alarm := if num_fire_locations ≥ 3 then min 5 (alarm + 1) else alarm
  match integrity_score with
  | some s => if s ≤ 4 then min 5 (alarm + 1) else alarm
  | none => alarm

/-- Table `FIREFIGHTERS_BY_ALARM` (the alarm level is always in 1..5). -/
def firefightersByAlarm : ℕ → ℕ
  | 1 => 4
  | 2 => 10
  | 3 => 18
  | 4 => 28
  | 5 => 40
  | _ => 0

/-- Python `int(q)`: truncation toward zero. -/
def pyInt (q : ℚ) : ℤ := if q < 0 then -⌊-q⌋ else ⌊q⌋

/-- Function `_estimate_containment_time(severity, alarm_level, num_fire_locations)`. -/
def estimate_containment_time (severity : ℤ) (alarm_level : ℕ)
    (num_fire_locations : ℕ) : ℤ :=
  let base_time := severity * 3
  let base_time := if num_fire_locations > 1 then base_time + num_fire_locations * 2
    else base_time
  let resource_factor : ℚ := max (1 / 2) (1 - ((alarm_level : ℚ) - 1) * (1 / 10))
  max 5 (pyInt ((base_time : ℚ) * resource_factor))

/-- The `fire_severity` dict fields read by `recommend_personnel`
(`severity` defaults to 5 when the key is missing). -/
structure PFireData where
  severity : Option ℤ := none
  fire_locations : List FireLocation := []
  smoke_density : String := "none"
deriving Repr, DecidableEq

/-- The `structural` dict fields read by `recommend_personnel`. -/
structure PStructData where
  integrity_score : Option ℤ := none
  collapse_risk : String := "none"
deriving Repr, DecidableEq

/-- The context dict passed to `recommend_personnel`. -/
structure PContext where
  fire_severity : Option PFireData := none
  structural : Option PStructData := none
deriving Repr, DecidableEq

/-- The numeric core of the `recommend_personnel` output (the narrative
strategy / equipment / truck string fields are not read by any claim and are
omitted). -/
structure PersonnelRec where
  firefighters : ℕ
  alarm_level : ℕ
  eta_containment_min : ℤ
deriving Repr, DecidableEq

/-- Function `recommend_personnel(context)` restricted to its numeric fields. -/
def recommend_personnel (context : Option PContext) : PersonnelRec :=
  let fire_data := (context.getD {}).fire_severity.getD {}
  let structural_data := (context.getD {}).structural.getD {}
  let severity := fire_data.severity.getD 5
  let fire_locations := fire_data.fire_locations
  let integrity_score := structural_data.integrity_score
  let num_fires := fire_locations.length
  let alarm_level := determine_alarm_level severity num_fires integrity_score
  let firefighters := firefightersByAlarm alarm_level
  let eta := estimate_containment_time severity alarm_level num_fires
  { firefighters := firefighters, alarm_level := alarm_level,
    eta_containment_min := eta }

/-! ## `apps/api/src/services/orchestrator.py` -/

/-- Constant `UPSTREAM_POLL_INTERVAL = 0.5`. -/
def UPSTREAM_POLL_INTERVAL : ℚ := 1 / 2

/-- Constant `UPSTREAM_TIMEOUT = 30.0`. -/
def UPSTREAM_TIMEOUT : ℚ := 30

/-- An instance-result dict: `confidence` and `frame_refs` are the keys the
consensus rewrites; `consensus_metadata` is the key it adds
(`(num_instances, agreement_score)`); `payload` stands for every other key,
carried verbatim by `results[0].copy()`. -/
structure TeamResult where
  confidence : Option ℚ := none
  frame_refs : List String := []
  consensus_metadata : Option (ℕ × ℚ) := none
  payload : List (String × String) := []
deriving Repr, DecidableEq

/-- Method `Team._compute_consensus(results)`. -/
def compute_consensus (results : List TeamResult) : TeamResult :=
  match results with
  | [] => {}
  | [r] => r
  | r :: s :: rest =>
    let results := r :: s :: rest
    let confidences := results.map (fun x => x.confidence.getD (4 / 5))
    let avg := confidences.sum / (results.length : ℚ)
    let all_frame_refs := results.foldl (fun acc x => acc ++ x.frame_refs) []
    { r with confidence := some avg
             frame_refs := all_frame_refs.dedup
             consensus_metadata := some (results.length, 17 / 20) }

/-- The upstream context: a dict from dependency name to its stored result. -/
def UpstreamCtx : Type := List (String × TeamResult)

/-- Body of the `for dep in dependencies` loop inside the poll: a dependency
already in the context is skipped; otherwise it is fetched from the store
snapshot, and `all_ready` (the second component) is cleared when absent. -/
def waitPollStep (snap : String → Option TeamResult)
    (acc : List (String × TeamResult) × Bool) (dep : String) :
    List (String × TeamResult) × Bool :=
  if (acc.1.lookup dep).isSome then acc
  else
    match snap dep with
    | some r => (acc.1 ++ [(dep, r)], acc.2)
    | none => (acc.1, false)

/-- One full pass over `dependencies` inside the polling loop: missing entries
are fetched from the store snapshot; returns the grown context and the
`all_ready` flag. -/
def waitStep (deps : List String) (snap : String → Option TeamResult)
    (ctx : List (String × TeamResult)) : List (String × TeamResult) × Bool :=
  deps.foldl (waitPollStep snap) (ctx, true)

/-- The `while True` polling loop of `Team._wait_for_upstream`.  `store k` is
the Redis snapshot seen by poll `k`; `time k` is the elapsed wall-clock time
at the timeout check of poll `k`; `fuel` bounds the unrolling (`none` =
still looping after `fuel` polls). -/
def waitLoop (deps : List String) (store : ℕ → String → Option TeamResult)
    (time : ℕ → ℚ) : ℕ → ℕ → List (String × TeamResult) →
    Option (List (String × TeamResult))
  | 0, _, _ => none
  | fuel + 1, k, ctx =>
    let step := waitStep deps (store k) ctx
    if step.2 then some step.1
    else if time k > UPSTREAM_TIMEOUT then some step.1
    else waitLoop deps store time fuel (k + 1) step.1

/-- Method `Team._wait_for_upstream`. -/
def wait_for_upstream (deps : List String) (store : ℕ → String → Option TeamResult)
    (time : ℕ → ℚ) (fuel : ℕ) : Option (List (String × TeamResult)) :=
  if deps.isEmpty then some [] else waitLoop deps store time fuel 0 []

/-- Method `Team.run_hybrid`, with the vision backend abstracted as
`analyzeFn` (phase 1, per instance and frame) and `mergeFn` (phase 3).
Returns the published consensus and the final team status written to the
store, or `none` if the polling loop were still running after `fuel` polls. -/
def run_hybrid (instances frames : List String) (deps : List String)
    (store : ℕ → String → Option TeamResult) (time : ℕ → ℚ) (fuel : ℕ)
    (analyzeFn : String → String → TeamResult)
    (mergeFn : TeamResult → List (String × TeamResult) → TeamResult) :
    Option (TeamResult × String) :=
  let independent := instances.foldl (fun acc i => acc ++ frames.map (analyzeFn i)) []
  match wait_for_upstream deps store time fuel with
  | none => none
  | some ctx =>
    let finals := independent.map (fun r => mergeFn r ctx)
    some (compute_consensus finals, "complete")

/-! ## Auxiliary definitions and concrete sample data used by the theorems -/

/-- Concrete sample room used by several witnesses. -/
def sampleRoom : Room :=
  { name := "Room 201", fire_intensity := 85 / 100, has_door_to := ["Hallway B"],
    fuel_level := "high" }

/-- Concrete sample hallway used by several witnesses. -/
def sampleHall : Room := { name := "Hallway B", has_door_to := ["Room 201"] }

/-- Hazard attributes lying in `[0, 1]`, as the data model requires. -/
def attrsInRange (a : NodeAttrs) : Prop :=
  0 ≤ a.fire_intensity ∧ a.fire_intensity ≤ 1 ∧
  0 ≤ a.structural_risk ∧ a.structural_risk ≤ 1 ∧
  0 ≤ a.smoke_risk ∧ a.smoke_risk ≤ 1

instance (a : NodeAttrs) : Decidable (attrsInRange a) := by
  unfold attrsInRange; infer_instance

/-- Small concrete room list used by the C2/C3 witnesses. -/
def wRooms : List RoomSpec :=
  [{ name := "A", adjacent := ["B"] }, { name := "B", adjacent := ["A"] }, { name := "C" }]

/-- Concrete graph used by the C2 witness. -/
def wg : BGraph := { nodes := [("A", {}), ("B", {})], edges := [("A", "B", 5)] }

/-- Second concrete room list (no doors at all) used by the C3 witness. -/
def wRooms2 : List RoomSpec := [{ name := "A" }, { name := "C" }]

/-- First concrete instance result for the C4 witness. -/
def wResA : TeamResult := { confidence := some (9 / 10), frame_refs := ["f1", "f2"] }

/-- Second concrete instance result for the C4 witness. -/
def wResB : TeamResult := { confidence := some (7 / 10), frame_refs := ["f2", "f3"] }

/-- The per-node effect of the blocked-passage loop as a scalar fold. -/
def blockedRiskScalar (name : String) (r : ℚ) (bps : List BlockedPassage) : ℚ :=
  bps.foldl
    (fun r bp =>
      if lowerIn name bp.passage then
        (if bp.severity = "complete" then 1 else max r (3 / 5))
      else r) r

/-- Concrete graph for the C5 witness. -/
def gW : BGraph := build_building_graph [{ name := "Lobby" }]

/-- Concrete structural data for the C5 witness: the node name occurs inside
the free-text passage label. -/
def sdW : StructuralData :=
  { blocked_passages := [{ passage := "the Lobby is blocked", severity := "complete" }],
    collapse_risk := "low" }

/-- Concrete fire data for the C8 witness. -/
def wFireC8 : PFireData :=
  { severity := some 9,
    fire_locations := [{ label := "a" }, { label := "b" }, { label := "c" }] }

/-- Concrete structural data for the C8 witness. -/
def wStructC8 : PStructData := { integrity_score := some 4 }

/-- Concrete fire data (no locations, severity 9) for the C10 witness. -/
def wFireC10 : FireSeverityData := { severity := 9 }

/-- Concrete layout for the C10 witness. -/
def wRoomsC10 : List RoomData := [{ name := "Lobby" }]

/-- The single room the C10 witness layout produces. -/
def wtRoom : Room :=
  { name := "Lobby", fire_intensity := initialIntensity [] 9 "Lobby",
    has_door_to := [], has_stairwell := false, fuel_level := roomFuelOf [] "Lobby",
    is_exterior := false }

/-- The predictions the survivability window is computed from. -/
def survPreds (fire : FireSeverityData) (rooms_data : List RoomData) :
    List SpreadPrediction :=
  predict_fire_spread (timelineRooms fire rooms_data) SIM_HORIZON_MIN

/-- The danger-crossing times of the predictions for rooms on the path. -/
def dangersOf (path : List String) (preds : List SpreadPrediction) : List ℕ :=
  (preds.filter (fun p => path.contains p.room_name)).filterMap
    SpreadPrediction.time_to_danger_min

/-! ## Helper lemmas -/

theorem fuelAcceleration_ge_one (s : String) : 1 ≤ fuelAcceleration s := by
  unfold fuelAcceleration
  split_ifs <;> norm_num

theorem spreadRate_step_le (room adj : Room) (acc : ℚ) :
    acc ≤
      (if adj.fire_intensity > 3 / 10 then
        let contribution := adj.fire_intensity * DOOR_ADJACENCY_FACTOR * BASE_SPREAD_RATE
        let contribution :=
          if room.has_stairwell || adj.has_stairwell then
            contribution * VERTICAL_SPREAD_MULTIPLIER
          else contribution
        acc + contribution
      else acc) := by
  split_ifs with h1 h2
  · have : (0 : ℚ) < adj.fire_intensity := by linarith
    unfold DOOR_ADJACENCY_FACTOR BASE_SPREAD_RATE VERTICAL_SPREAD_MULTIPLIER
    nlinarith
  · have : (0 : ℚ) < adj.fire_intensity := by linarith
    unfold DOOR_ADJACENCY_FACTOR BASE_SPREAD_RATE
    nlinarith
  · exact le_refl acc

theorem spreadRate_foldl_le (room : Room) (l : List Room) (init : ℚ) :
    init ≤ l.foldl
      (fun rate adj =>
        if adj.fire_intensity > 3 / 10 then
          let contribution := adj.fire_intensity * DOOR_ADJACENCY_FACTOR * BASE_SPREAD_RATE
          let contribution :=
            if room.has_stairwell || adj.has_stairwell then
              contribution * VERTICAL_SPREAD_MULTIPLIER
            else contribution
          rate + contribution
        else rate)
      init := by
  induction l generalizing init with
  | nil => exact le_refl init
  | cons a l ih =>
    refine le_trans (spreadRate_step_le room a init) ?_
    exact ih _

theorem compute_room_spread_rate_nonneg (room : Room) (adjacent : List Room) :
    0 ≤ compute_room_spread_rate room adjacent := by
  unfold compute_room_spread_rate
  refine le_trans ?_ (spreadRate_foldl_le room adjacent _)
  have h := fuelAcceleration_ge_one room.fuel_level
  unfold BASE_SPREAD_RATE
  nlinarith

theorem intensitySeq_le_one (room : Room) (adjacent : List Room)
    (h1 : room.fire_intensity ≤ 1) (t : ℕ) :
    intensitySeq room adjacent t ≤ 1 := by
  cases t with
  | zero => exact h1
  | succ t => exact min_le_left _ _

/-! ## Claim C1 -/

/-- Claim C1: for every list of rooms and every horizon, the per-room
intensity sequence produced by the fire spread simulation
(`predict_fire_spread`, whose per-room intensity list is
`intensitySeq r (adjacentOf rooms r)` evaluated at minutes `0..horizon`)
is monotonically non-decreasing in time and never exceeds 1.0, for any
fuel levels, adjacency and stairwell flags, given the data-model bound
that the starting intensity is at most 1. -/
theorem fire_spread_monotone_bounded (rooms : List Room) (r : Room)
    (hr : r ∈ rooms) (h1 : r.fire_intensity ≤ 1) (t : ℕ) :
    intensitySeq r (adjacentOf rooms r) t ≤ intensitySeq r (adjacentOf rooms r) (t + 1) ∧
    intensitySeq r (adjacentOf rooms r) t ≤ 1 := by
  refine ⟨?_, intensitySeq_le_one r _ h1 t⟩
  have hb : intensitySeq r (adjacentOf rooms r) t ≤ 1 := intensitySeq_le_one r _ h1 t
  have hrate := compute_room_spread_rate_nonneg
    { r with fire_intensity := intensitySeq r (adjacentOf rooms r) t } (adjacentOf rooms r)
  show intensitySeq r (adjacentOf rooms r) t ≤
    min 1 (intensitySeq r (adjacentOf rooms r) t +
      compute_room_spread_rate
        { r with fire_intensity := intensitySeq r (adjacentOf rooms r) t }
        (adjacentOf rooms r))
  exact le_min hb (by linarith)

/-- Witness for C1 at a concrete room list and minute. -/
theorem fire_spread_monotone_bounded_witness :
    sampleRoom ∈ [sampleRoom, sampleHall] ∧ sampleRoom.fire_intensity ≤ 1 ∧
    (intensitySeq sampleRoom (adjacentOf [sampleRoom, sampleHall] sampleRoom) 3 ≤
      intensitySeq sampleRoom (adjacentOf [sampleRoom, sampleHall] sampleRoom) 4 ∧
     intensitySeq sampleRoom (adjacentOf [sampleRoom, sampleHall] sampleRoom) 3 ≤ 1) := by
  refine ⟨by simp, by norm_num [sampleRoom], ?_⟩
  exact fire_spread_monotone_bounded [sampleRoom, sampleHall] sampleRoom (by simp)
    (by norm_num [sampleRoom]) 3

/-! ## Claim C6 -/

theorem firstAbove_none_iff (thr : ℚ) (xs : List ℚ) :
    firstAbove thr xs = none ↔ ∀ x ∈ xs, x ≤ thr := by
  induction xs with
  | nil => simp [firstAbove]
  | cons x xs ih =>
    unfold firstAbove
    by_cases h : thr < x
    · simp only [if_pos h]
      constructor
      · intro hs; cases hs
      · intro hall; exact absurd (hall x (List.mem_cons_self x xs)) (not_le.mpr h)
    · simp only [if_neg h, Option.map_eq_none', ih]
      constructor
      · intro hall y hy
        rcases List.mem_cons.mp hy with rfl | hy
        · exact le_of_not_lt h
        · exact hall y hy
      · intro hall y hy; exact hall y (List.mem_cons_of_mem _ hy)

theorem firstAbove_map_range_some_iff (thr : ℚ) :
    ∀ (n : ℕ) (f : ℕ → ℚ) (k : ℕ),
      firstAbove thr ((List.range (n + 1)).map f) = some k ↔
        (k ≤ n ∧ thr < f k ∧ ∀ j < k, f j ≤ thr) := by
  intro n
  induction n with
  | zero =>
    intro f k
    have h1 : (List.range 1).map f = [f 0] := rfl
    rw [h1]
    unfold firstAbove
    by_cases h : thr < f 0
    · simp only [if_pos h]
      constructor
      · intro hs
        have hk : k = 0 := by cases hs; rfl
        subst hk
        exact ⟨le_refl 0, h, by omega⟩
      · intro ⟨hk, _, _⟩
        have : k = 0 := Nat.le_zero.mp hk
        subst this; rfl
    · simp only [if_neg h]
      unfold firstAbove
      constructor
      · intro hs; simp at hs
      · intro ⟨hk, habove, _⟩
        have : k = 0 := Nat.le_zero.mp hk
        subst this; exact absurd habove h
  | succ n ih =>
    intro f k
    have hsplit : (List.range (n + 1 + 1)).map f =
        f 0 :: (List.range (n + 1)).map (fun j => f (j + 1)) := by
      rw [List.range_succ_eq_map]
      simp [List.map_map, Function.comp]
    rw [hsplit]
    unfold firstAbove
    by_cases h : thr < f 0
    · simp only [if_pos h]
      constructor
      · intro hs
        have hk : k = 0 := by cases hs; rfl
        subst hk
        exact ⟨Nat.zero_le _, h, by omega⟩
      · intro ⟨hk, habove, hbelow⟩
        rcases Nat.eq_zero_or_pos k with rfl | hkpos
        · rfl
        · exact absurd (hbelow 0 hkpos) (not_le.mpr h)
    · simp only [if_neg h, Option.map_eq_some']
      constructor
      · intro ⟨m, hm, hmk⟩
        obtain ⟨hmn, habove, hbelow⟩ := (ih (fun j => f (j + 1)) m).mp hm
        subst hmk
        refine ⟨by omega, habove, ?_⟩
        intro j hj
        cases j with
        | zero => exact le_of_not_lt h
        | succ j => exact hbelow j (by omega)
      · intro ⟨hk, habove, hbelow⟩
        cases k with
        | zero => exact absurd habove h
        | succ m =>
          refine ⟨m, (ih (fun j => f (j + 1)) m).mpr ⟨by omega, habove, ?_⟩, rfl⟩
          intro j hj
          exact hbelow (j + 1) (by omega)

/-- Claim C6: for every room in the fire spread prediction, `time_to_danger`
is the first simulated minute index at which that room's intensity exceeds
0.6, and `time_to_flashover` the first at which it exceeds 0.8; each is 0
when the initial intensity is already above the threshold, and `none` when
the threshold is never crossed within the simulated horizon. -/
theorem prediction_first_crossing (rooms : List Room) (steps : ℕ) (r : Room)
    (hr : r ∈ rooms) :
    predictRoom rooms steps r ∈ predict_fire_spread rooms steps ∧
    (∀ k, (predictRoom rooms steps r).time_to_danger_min = some k ↔
      (k ≤ steps ∧ 3 / 5 < intensitySeq r (adjacentOf rooms r) k ∧
       ∀ j < k, intensitySeq r (adjacentOf rooms r) j ≤ 3 / 5)) ∧
    ((predictRoom rooms steps r).time_to_danger_min = none ↔
      ∀ t ≤ steps, intensitySeq r (adjacentOf rooms r) t ≤ 3 / 5) ∧
    (3 / 5 < r.fire_intensity → (predictRoom rooms steps r).time_to_danger_min = some 0) ∧
    (∀ k, (predictRoom rooms steps r).time_to_flashover_min = some k ↔
      (k ≤ steps ∧ 4 / 5 < intensitySeq r (adjacentOf rooms r) k ∧
       ∀ j < k, intensitySeq r (adjacentOf rooms r) j ≤ 4 / 5)) ∧
    ((predictRoom rooms steps r).time_to_flashover_min = none ↔
      ∀ t ≤ steps, intensitySeq r (adjacentOf rooms r) t ≤ 4 / 5) ∧
    (4 / 5 < r.fire_intensity → (predictRoom rooms steps r).time_to_flashover_min = some 0) := by
  have hdanger : (predictRoom rooms steps r).time_to_danger_min =
      firstAbove (3 / 5) ((List.range (steps + 1)).map (intensitySeq r (adjacentOf rooms r))) := rfl
  have hflash : (predictRoom rooms steps r).time_to_flashover_min =
      firstAbove (4 / 5) ((List.range (steps + 1)).map (intensitySeq r (adjacentOf rooms r))) := rfl
  have hmem' : ∀ (thr : ℚ),
      (∀ x ∈ (List.range (steps + 1)).map (intensitySeq r (adjacentOf rooms r)), x ≤ thr) ↔
      ∀ t ≤ steps, intensitySeq r (adjacentOf rooms r) t ≤ thr := by
    intro thr
    constructor
    · intro hall t ht
      exact hall _ (List.mem_map_of_mem _ (List.mem_range.mpr (by omega)))
    · intro hall x hx
      obtain ⟨t, ht, rfl⟩ := List.mem_map.mp hx
      have ht' := List.mem_range.mp ht
      exact hall t (by omega)
  refine ⟨List.mem_map_of_mem _ hr, ?_, ?_, ?_, ?_, ?_, ?_⟩
  · intro k; rw [hdanger]; exact firstAbove_map_range_some_iff _ steps _ k
  · rw [hdanger, firstAbove_none_iff]; exact hmem' _
  · intro hinit
    rw [hdanger]
    exact (firstAbove_map_range_some_iff _ steps _ 0).mpr ⟨Nat.zero_le _, hinit, by omega⟩
  · intro k; rw [hflash]; exact firstAbove_map_range_some_iff _ steps _ k
  · rw [hflash, firstAbove_none_iff]; exact hmem' _
  · intro hinit
    rw [hflash]
    exact (firstAbove_map_range_some_iff _ steps _ 0).mpr ⟨Nat.zero_le _, hinit, by omega⟩

/-- Witness for C6: the sample burning room is already above both thresholds
at minute 0. -/
theorem prediction_first_crossing_witness :
    (predictRoom [sampleRoom, sampleHall] 10 sampleRoom).time_to_danger_min = some 0 ∧
    (predictRoom [sampleRoom, sampleHall] 10 sampleRoom).time_to_flashover_min = some 0 := by
  have h := prediction_first_crossing [sampleRoom, sampleHall] 10 sampleRoom (by simp)
  exact ⟨h.2.2.2.1 (by norm_num [sampleRoom]), h.2.2.2.2.2.2 (by norm_num [sampleRoom])⟩

/-! ## Claim C2 -/

theorem foldl_mem_preserve {α β : Type _} (f : List α → β → List α) (P : α → Prop)
    (hf : ∀ acc b x, (∀ y ∈ acc, P y) → x ∈ f acc b → P x) :
    ∀ (l : List β) (acc : List α), (∀ y ∈ acc, P y) → ∀ x ∈ l.foldl f acc, P x := by
  intro l
  induction l with
  | nil => intro acc h x hx; exact h x hx
  | cons b l ih =>
    intro acc h x hx
    exact ih (f acc b) (fun y hy => hf acc b y h hy) x hx

theorem mem_upsertEdge (u v : String) (w : ℚ) :
    ∀ (es : List (String × String × ℚ)) (x), x ∈ upsertEdge es u v w →
      x = (u, v, w) ∨ x ∈ es := by
  intro es
  induction es with
  | nil => intro x hx; simp [upsertEdge] at hx; exact Or.inl hx
  | cons e es ih =>
    intro x hx
    unfold upsertEdge at hx
    by_cases hc : e.1 == u && e.2.1 == v
    · obtain ⟨a, b, c⟩ := e
      simp only [hc] at hx
      rcases List.mem_cons.mp hx with rfl | hx
      · exact Or.inl rfl
      · exact Or.inr (List.mem_cons_of_mem _ hx)
    · obtain ⟨a, b, c⟩ := e
      simp only [hc] at hx
      rcases List.mem_cons.mp hx with rfl | hx
      · exact Or.inr (List.mem_cons_self _ _)
      · rcases ih x hx with h | h
        · exact Or.inl h
        · exact Or.inr (List.mem_cons_of_mem _ h)

theorem build_edge_weight (rooms : List RoomSpec) :
    ∀ e ∈ (build_building_graph rooms).edges,
      ∃ dest, rooms.find? (fun r => r.name == e.2.1) = some dest ∧
        e.2.2 = weightFormula (attrsOfRoom dest) := by
  refine foldl_mem_preserve _ _ ?_ rooms [] (by simp)
  intro acc room x hacc hx
  refine foldl_mem_preserve _ _ ?_ room.adjacent acc hacc x hx
  intro acc2 adj_name y hacc2 hy
  cases hfind : rooms.find? (fun r => r.name == adj_name) with
  | none => rw [hfind] at hy; exact hacc2 y hy
  | some dest =>
    rw [hfind] at hy
    rcases mem_upsertEdge _ _ _ _ _ hy with rfl | hmem
    · exact ⟨dest, hfind, rfl⟩
    · exact hacc2 y hmem

theorem upsertNode_append (n : String) (a : NodeAttrs) :
    ∀ (ns : List (String × NodeAttrs)), (∀ p ∈ ns, p.1 ≠ n) →
      upsertNode ns n a = ns ++ [(n, a)] := by
  intro ns
  induction ns with
  | nil => intro _; rfl
  | cons p ns ih =>
    intro h
    obtain ⟨m, b⟩ := p
    have hne : m ≠ n := h (m, b) (List.mem_cons_self _ _)
    unfold upsertNode
    rw [if_neg (by simpa using hne)]
    rw [ih (fun q hq => h q (List.mem_cons_of_mem _ hq))]
    rfl

theorem foldl_upsertNode_eq :
    ∀ (rooms : List RoomSpec) (acc : List (String × NodeAttrs)),
      (rooms.map RoomSpec.name).Nodup →
      (∀ r ∈ rooms, ∀ p ∈ acc, p.1 ≠ r.name) →
      rooms.foldl (fun ns r => upsertNode ns r.name (attrsOfRoom r)) acc =
        acc ++ rooms.map (fun r => (r.name, attrsOfRoom r)) := by
  intro rooms
  induction rooms with
  | nil => intro acc _ _; simp
  | cons r rest ih =>
    intro acc hnodup hfresh
    have hstep : upsertNode acc r.name (attrsOfRoom r) = acc ++ [(r.name, attrsOfRoom r)] :=
      upsertNode_append _ _ acc (fun p hp => hfresh r (List.mem_cons_self _ _) p hp)
    have hnodup' : (rest.map RoomSpec.name).Nodup := (List.nodup_cons.mp hnodup).2
    have hhead : r.name ∉ rest.map RoomSpec.name := (List.nodup_cons.mp hnodup).1
    have hfresh' : ∀ s ∈ rest, ∀ p ∈ acc ++ [(r.name, attrsOfRoom r)], p.1 ≠ s.name := by
      intro s hs p hp
      rcases List.mem_append.mp hp with hp | hp
      · exact hfresh s (List.mem_cons_of_mem _ hs) p hp
      · have hpe : p = (r.name, attrsOfRoom r) := by simpa using hp
        subst hpe
        intro heq
        have heq' : r.name = s.name := heq
        exact hhead (by rw [heq']; exact List.mem_map_of_mem RoomSpec.name hs)
    show (rest.foldl (fun ns s => upsertNode ns s.name (attrsOfRoom s))
        (upsertNode acc r.name (attrsOfRoom r))) = _
    rw [hstep, ih _ hnodup' hfresh', List.append_assoc]
    rfl

theorem build_nodes_eq (rooms : List RoomSpec) (h : (rooms.map RoomSpec.name).Nodup) :
    (build_building_graph rooms).nodes = rooms.map (fun r => (r.name, attrsOfRoom r)) := by
  show rooms.foldl (fun ns r => upsertNode ns r.name (attrsOfRoom r)) [] = _
  rw [foldl_upsertNode_eq rooms [] h (by simp)]
  rfl

theorem attrOf_build (rooms : List RoomSpec) (h : (rooms.map RoomSpec.name).Nodup)
    (v : String) :
    attrOf (build_building_graph rooms) v =
      ((rooms.find? (fun r => r.name == v)).map attrsOfRoom).getD {} := by
  unfold attrOf
  rw [build_nodes_eq rooms h, List.find?_map]
  have hcomp : ((fun (p : String × NodeAttrs) => p.1 == v) ∘
      (fun r : RoomSpec => (r.name, attrsOfRoom r))) = (fun r : RoomSpec => r.name == v) := rfl
  rw [hcomp]
  cases hfind : rooms.find? (fun r => r.name == v) <;> rfl

theorem weightFormula_ge_one (a : NodeAttrs) (h : attrsInRange a) : 1 ≤ weightFormula a := by
  obtain ⟨h1, _, h2, _, h3, _⟩ := h
  unfold weightFormula
  nlinarith

theorem attrOf_inRange (g : BGraph) (hg : ∀ p ∈ g.nodes, attrsInRange p.2) (v : String) :
    attrsInRange (attrOf g v) := by
  unfold attrOf
  cases hfind : g.nodes.find? (fun p => p.1 == v) with
  | none => exact ⟨le_refl 0, by norm_num, le_refl 0, by norm_num, le_refl 0, by norm_num⟩
  | some p => exact hg p (List.mem_of_find?_eq_some hfind)

theorem attrOf_recompute (g : BGraph) (v : String) :
    attrOf (recomputeWeights g) v = attrOf g v := rfl

theorem recompute_edge_weight (g : BGraph) :
    ∀ e ∈ (recomputeWeights g).edges,
      e.2.2 = weightFormula (attrOf (recomputeWeights g) e.2.1) := by
  intro e he
  obtain ⟨e0, _, rfl⟩ := List.mem_map.mp he
  rfl

/-- Claim C2: every edge weight of a freshly built graph and of a graph after
either overlay equals `1 + 10·fire(v) + 5·structural(v) + 3·smoke(v)` of the
destination node `v`, and is at least 1 when the node hazard attributes lie
in `[0, 1]` (for the build case, assuming the data-model invariant that room
names are unique). -/
theorem edge_weight_invariant :
    (∀ rooms : List RoomSpec, (rooms.map RoomSpec.name).Nodup →
      ∀ e ∈ (build_building_graph rooms).edges,
        e.2.2 = weightFormula (attrOf (build_building_graph rooms) e.2.1) ∧
        ((∀ r ∈ rooms, attrsInRange (attrsOfRoom r)) → 1 ≤ e.2.2)) ∧
    (∀ (g : BGraph) (fd : FireOverlay), ∀ e ∈ (apply_fire_data g fd).edges,
        e.2.2 = weightFormula (attrOf (apply_fire_data g fd) e.2.1) ∧
        ((∀ p ∈ (apply_fire_data g fd).nodes, attrsInRange p.2) → 1 ≤ e.2.2)) ∧
    (∀ (g : BGraph) (sd : StructuralData), ∀ e ∈ (apply_structural_data g sd).edges,
        e.2.2 = weightFormula (attrOf (apply_structural_data g sd) e.2.1) ∧
        ((∀ p ∈ (apply_structural_data g sd).nodes, attrsInRange p.2) → 1 ≤ e.2.2)) := by
  refine ⟨?_, ?_, ?_⟩
  · intro rooms hnodup e he
    obtain ⟨dest, hfind, hw⟩ := build_edge_weight rooms e he
    have hattr : attrOf (build_building_graph rooms) e.2.1 = attrsOfRoom dest := by
      rw [attrOf_build rooms hnodup, hfind]; rfl
    refine ⟨by rw [hattr, hw], ?_⟩
    intro hrange
    rw [hw]
    exact weightFormula_ge_one _ (hrange dest (List.mem_of_find?_eq_some hfind))
  · intro g fd e he
    have hw := recompute_edge_weight _ e he
    refine ⟨hw, ?_⟩
    intro hrange
    rw [hw]
    exact weightFormula_ge_one _ (attrOf_inRange _ hrange _)
  · intro g sd e he
    have hw := recompute_edge_weight _ e he
    refine ⟨hw, ?_⟩
    intro hrange
    rw [hw]
    exact weightFormula_ge_one _ (attrOf_inRange (apply_structural_data g sd) hrange e.2.1)

/-- Witness for C2: a concrete edge of the built graph, and of the two
overlaid graphs. -/
theorem edge_weight_invariant_witness :
    ("A", "B", weightFormula (attrOf (build_building_graph wRooms) "B")) ∈
        (build_building_graph wRooms).edges ∧
    1 ≤ weightFormula (attrOf (build_building_graph wRooms) "B") ∧
    ("A", "B", weightFormula (attrOf (apply_fire_data wg {}) "B")) ∈
        (apply_fire_data wg {}).edges ∧
    1 ≤ weightFormula (attrOf (apply_fire_data wg {}) "B") ∧
    ("A", "B", weightFormula (attrOf (apply_structural_data wg {}) "B")) ∈
        (apply_structural_data wg {}).edges ∧
    1 ≤ weightFormula (attrOf (apply_structural_data wg {}) "B") := by
  have e1 : (build_building_graph wRooms).edges =
      [("A", "B", weightFormula (attrOf (build_building_graph wRooms) "B")),
       ("B", "A", weightFormula (attrOf (build_building_graph wRooms) "A"))] := rfl
  have e2 : (apply_fire_data wg {}).edges =
      [("A", "B", weightFormula (attrOf (apply_fire_data wg {}) "B"))] := rfl
  have e3 : (apply_structural_data wg {}).edges =
      [("A", "B", weightFormula (attrOf (apply_structural_data wg {}) "B"))] := rfl
  have h1 : ("A", "B", weightFormula (attrOf (build_building_graph wRooms) "B")) ∈
      (build_building_graph wRooms).edges := by rw [e1]; exact List.mem_cons_self _ _
  have h2 : ("A", "B", weightFormula (attrOf (apply_fire_data wg {}) "B")) ∈
      (apply_fire_data wg {}).edges := by rw [e2]; exact List.mem_cons_self _ _
  have h3 : ("A", "B", weightFormula (attrOf (apply_structural_data wg {}) "B")) ∈
      (apply_structural_data wg {}).edges := by rw [e3]; exact List.mem_cons_self _ _
  have hrangeRooms : ∀ r ∈ wRooms, attrsInRange (attrsOfRoom r) := by
    intro r hr
    simp only [wRooms, List.mem_cons, List.not_mem_nil, or_false] at hr
    rcases hr with rfl | rfl | rfl <;> norm_num [attrsInRange, attrsOfRoom]
  have hnodesF : (apply_fire_data wg {}).nodes = [("A", {}), ("B", {})] := rfl
  have hnodesS : (apply_structural_data wg {}).nodes =
      [("A", ({} : NodeAttrs)), ("B", ({} : NodeAttrs))] := by
    show applyCollapseFloor wg.nodes (collapseMap "none") = _
    norm_num [applyCollapseFloor, collapseMap, wg]
  have hrF : ∀ p ∈ (apply_fire_data wg {}).nodes, attrsInRange p.2 := by
    rw [hnodesF]
    intro p hp
    simp only [List.mem_cons, List.not_mem_nil, or_false] at hp
    rcases hp with rfl | rfl <;> norm_num [attrsInRange]
  have hrS : ∀ p ∈ (apply_structural_data wg {}).nodes, attrsInRange p.2 := by
    rw [hnodesS]
    intro p hp
    simp only [List.mem_cons, List.not_mem_nil, or_false] at hp
    rcases hp with rfl | rfl <;> norm_num [attrsInRange]
  refine ⟨h1, ?_, h2, ?_, h3, ?_⟩
  · have := (edge_weight_invariant.1 wRooms (by decide) _ h1).2 hrangeRooms
    exact this
  · have := (edge_weight_invariant.2.1 wg {} _ h2).2 hrF
    exact this
  · have := (edge_weight_invariant.2.2 wg {} _ h3).2 hrS
    exact this

/-! ## Claim C3 -/

/-- Claim C3: if either endpoint is absent from the solver graph,
`solve_fire_aware` returns the empty path with risk level "blocked" and an
error tag; if both endpoints exist but the path search finds no path
(`dijkstraPath … = none`, the `NetworkXNoPath` case), it returns the same
blocked result without an error tag.  Both are ordinary return values of the
total function. -/
theorem blocked_route (origin destination : String) (fire_data : Option FireOverlay)
    (structural_data : Option StructuralData) (rooms : List RoomSpec) :
    ((origin ∉ nodeNames (solverGraph fire_data structural_data rooms) ∨
      destination ∉ nodeNames (solverGraph fire_data structural_data rooms)) →
      (solve_fire_aware origin destination fire_data structural_data rooms).path = [] ∧
      (solve_fire_aware origin destination fire_data structural_data rooms).risk_level =
        "blocked" ∧
      (solve_fire_aware origin destination fire_data structural_data rooms).total_cost =
        none ∧
      (solve_fire_aware origin destination fire_data structural_data rooms).error.isSome) ∧
    (origin ∈ nodeNames (solverGraph fire_data structural_data rooms) →
      destination ∈ nodeNames (solverGraph fire_data structural_data rooms) →
      dijkstraPath (solverGraph fire_data structural_data rooms) origin destination = none →
      solve_fire_aware origin destination fire_data structural_data rooms =
        { path := [], total_cost := none, risk_level := "blocked", room_risks := [],
          error := none }) := by
  constructor
  · intro h
    have hcond : ¬ (nodeNames (solverGraph fire_data structural_data rooms)).contains origin ∨
        ¬ (nodeNames (solverGraph fire_data structural_data rooms)).contains destination := by
      rcases h with h | h
      · exact Or.inl (by simpa using h)
      · exact Or.inr (by simpa using h)
    simp only [solve_fire_aware]
    rw [if_pos hcond]
    exact ⟨rfl, rfl, rfl, rfl⟩
  · intro ho hd hpath
    have hcond : ¬ (¬ (nodeNames (solverGraph fire_data structural_data rooms)).contains origin ∨
        ¬ (nodeNames (solverGraph fire_data structural_data rooms)).contains destination) := by
      push_neg
      exact ⟨by simpa using ho, by simpa using hd⟩
    simp only [solve_fire_aware]
    rw [if_neg hcond, hpath]

/-- Witness for C3: a missing destination, and two disconnected rooms. -/
theorem blocked_route_witness :
    ((solve_fire_aware "A" "Z" none none wRooms).path = [] ∧
     (solve_fire_aware "A" "Z" none none wRooms).risk_level = "blocked" ∧
     (solve_fire_aware "A" "Z" none none wRooms).total_cost = none ∧
     (solve_fire_aware "A" "Z" none none wRooms).error.isSome) ∧
    solve_fire_aware "A" "C" none none wRooms2 =
      { path := [], total_cost := none, risk_level := "blocked", room_risks := [],
        error := none } := by
  constructor
  · exact (blocked_route "A" "Z" none none wRooms).1 (Or.inr (by decide))
  · exact (blocked_route "A" "C" none none wRooms2).2 (by decide) (by decide) rfl

/-! ## Claim C4 -/

theorem foldl_append_frame_refs :
    ∀ (l : List TeamResult) (acc : List String),
      l.foldl (fun acc x => acc ++ x.frame_refs) acc =
        acc ++ (l.map TeamResult.frame_refs).flatten := by
  intro l
  induction l with
  | nil => intro acc; simp
  | cons r l ih => intro acc; simp [ih, List.append_assoc]

theorem map_getD_confidence :
    ∀ (l : List TeamResult), (∀ r ∈ l, r.confidence.isSome) →
      l.map (fun x => x.confidence.getD (4 / 5)) = l.filterMap TeamResult.confidence := by
  intro l
  induction l with
  | nil => intro _; rfl
  | cons r l ih =>
    intro h
    obtain ⟨c, hc⟩ := Option.isSome_iff_exists.mp (h r (List.mem_cons_self _ _))
    simp only [List.map_cons, List.filterMap_cons, hc, Option.getD_some]
    rw [ih (fun x hx => h x (List.mem_cons_of_mem _ hx))]

/-- Claim C4: consensus of a single-instance list is that result verbatim;
for two or more instances the consensus is the first result with
`confidence` replaced by the arithmetic mean of all confidences,
`frame_refs` replaced by the de-duplicated union of all frame refs, and a
metadata block carrying the instance count and the constant agreement score
0.85; every other field is carried over from the first result. -/
theorem consensus_spec :
    (∀ r : TeamResult, compute_consensus [r] = r) ∧
    ∀ (r0 r1 : TeamResult) (rest : List TeamResult),
      ((∀ r ∈ r0 :: r1 :: rest, r.confidence.isSome) →
        (compute_consensus (r0 :: r1 :: rest)).confidence =
          some (((r0 :: r1 :: rest).filterMap TeamResult.confidence).sum /
            (((r0 :: r1 :: rest).length : ℕ) : ℚ))) ∧
      (∀ s, s ∈ (compute_consensus (r0 :: r1 :: rest)).frame_refs ↔
        ∃ r ∈ r0 :: r1 :: rest, s ∈ r.frame_refs) ∧
      (compute_consensus (r0 :: r1 :: rest)).frame_refs.Nodup ∧
      (compute_consensus (r0 :: r1 :: rest)).consensus_metadata =
        some ((r0 :: r1 :: rest).length, 17 / 20) ∧
      (compute_consensus (r0 :: r1 :: rest)).payload = r0.payload := by
  refine ⟨fun r => rfl, ?_⟩
  intro r0 r1 rest
  refine ⟨?_, ?_, ?_, rfl, rfl⟩
  · intro h
    show some (((r0 :: r1 :: rest).map (fun x => x.confidence.getD (4 / 5))).sum /
        (((r0 :: r1 :: rest).length : ℕ) : ℚ)) = _
    rw [map_getD_confidence _ h]
  · intro s
    show s ∈ ((r0 :: r1 :: rest).foldl (fun acc x => acc ++ x.frame_refs) []).dedup ↔ _
    rw [List.mem_dedup, foldl_append_frame_refs]
    simp [List.mem_flatten]
  · exact List.nodup_dedup _

/-- Witness for C4 at two concrete instance results. -/
theorem consensus_spec_witness :
    compute_consensus [wResA] = wResA ∧
    (compute_consensus [wResA, wResB]).confidence =
      some ((([wResA, wResB] : List TeamResult).filterMap TeamResult.confidence).sum /
        ((([wResA, wResB] : List TeamResult).length : ℕ) : ℚ)) ∧
    (compute_consensus [wResA, wResB]).consensus_metadata =
      some (([wResA, wResB] : List TeamResult).length, 17 / 20) := by
  have hsome : ∀ r ∈ ([wResA, wResB] : List TeamResult), r.confidence.isSome := by
    intro r hr
    simp only [List.mem_cons, List.not_mem_nil, or_false] at hr
    rcases hr with rfl | rfl <;> rfl
  exact ⟨consensus_spec.1 wResA, (consensus_spec.2 wResA wResB []).1 hsome,
    (consensus_spec.2 wResA wResB []).2.2.2.1⟩

/-! ## Claim C5 (corrected: the structural match is one-directional) -/

/-- Counterexample to C5 as stated: for node "Lobby" and passage text "Lob"
the bidirectional match claimed by the spec holds (the passage text is
contained in the node name), yet `apply_structural_data` with a "complete"
blockage leaves `structural_risk` at 0, not 1: the code only checks
`node.lower() in passage.lower()`. -/
theorem structural_match_counterexample :
    (lowerIn "Lob" "Lobby" || lowerIn "Lobby" "Lob") = true ∧
    lowerIn "Lobby" "Lob" = false ∧
    (attrOf (apply_structural_data (build_building_graph [{ name := "Lobby" }])
        { blocked_passages := [{ passage := "Lob", severity := "complete" }],
          collapse_risk := "none" }) "Lobby").structural_risk = 0 ∧
    (attrOf (apply_structural_data (build_building_graph [{ name := "Lobby" }])
        { blocked_passages := [{ passage := "Lob", severity := "complete" }],
          collapse_risk := "none" }) "Lobby").structural_risk ≠ 1 := by
  have key : (attrOf (apply_structural_data (build_building_graph [{ name := "Lobby" }])
      { blocked_passages := [{ passage := "Lob", severity := "complete" }],
        collapse_risk := "none" }) "Lobby").structural_risk = max 0 0 := rfl
  refine ⟨by decide, by decide, ?_, ?_⟩
  · rw [key]; exact max_self 0
  · rw [key, max_self 0]; norm_num

theorem applyBlocked_eq_map :
    ∀ (bps : List BlockedPassage) (ns : List (String × NodeAttrs)),
      applyBlockedPassages ns bps =
        ns.map (fun p => (p.1,
          { p.2 with structural_risk := blockedRiskScalar p.1 p.2.structural_risk bps })) := by
  intro bps
  induction bps with
  | nil =>
    intro ns
    show ns = _
    induction ns with
    | nil => rfl
    | cons p ns ih => exact congrArg₂ List.cons rfl ih
  | cons bp bps ih =>
    intro ns
    show applyBlockedPassages
      (ns.map (fun p =>
        if lowerIn p.1 bp.passage then
          if bp.severity = "complete" then (p.1, { p.2 with structural_risk := 1 })
          else (p.1, { p.2 with structural_risk := max p.2.structural_risk (3 / 5) })
        else p)) bps = _
    rw [ih, List.map_map]
    apply List.map_congr_left
    intro p _
    by_cases hm : lowerIn p.1 bp.passage
    · by_cases hc : bp.severity = "complete" <;>
        simp [Function.comp, hm, hc, blockedRiskScalar]
    · simp [Function.comp, hm, blockedRiskScalar]

theorem blockedStep_bounds (name : String) (bp : BlockedPassage) (r : ℚ) (h : r ≤ 1) :
    (r ≤ (if lowerIn name bp.passage then
        (if bp.severity = "complete" then 1 else max r (3 / 5)) else r)) ∧
    (if lowerIn name bp.passage then
        (if bp.severity = "complete" then 1 else max r (3 / 5)) else r) ≤ 1 := by
  by_cases hm : lowerIn name bp.passage
  · by_cases hc : bp.severity = "complete"
    · simp [hm, hc, h]
    · simp only [hm, if_true, hc, if_false]
      exact ⟨le_max_left _ _, max_le h (by norm_num)⟩
  · simp [hm, h]

theorem blockedRiskScalar_bounds (name : String) :
    ∀ (bps : List BlockedPassage) (r : ℚ), r ≤ 1 →
      r ≤ blockedRiskScalar name r bps ∧ blockedRiskScalar name r bps ≤ 1 := by
  intro bps
  induction bps with
  | nil => intro r h; exact ⟨le_refl r, h⟩
  | cons bp bps ih =>
    intro r h
    have hstep := blockedStep_bounds name bp r h
    have hrec := ih _ hstep.2
    exact ⟨le_trans hstep.1 hrec.1, hrec.2⟩

theorem blockedRiskScalar_one (name : String) :
    ∀ bps : List BlockedPassage, blockedRiskScalar name 1 bps = 1 := by
  intro bps
  induction bps with
  | nil => rfl
  | cons bp bps ih =>
    show blockedRiskScalar name _ bps = 1
    by_cases hm : lowerIn name bp.passage
    · by_cases hc : bp.severity = "complete"
      · simpa [hm, hc] using ih
      · have hmax : max (1 : ℚ) (3 / 5) = 1 := max_eq_left (by norm_num)
        simpa [hm, hc, hmax] using ih
    · simpa [hm] using ih

theorem blockedRiskScalar_complete (name : String) :
    ∀ (bps : List BlockedPassage) (r : ℚ), r ≤ 1 →
      (∃ bp ∈ bps, lowerIn name bp.passage ∧ bp.severity = "complete") →
      blockedRiskScalar name r bps = 1 := by
  intro bps
  induction bps with
  | nil => intro r _ hex; simp at hex
  | cons bp bps ih =>
    intro r h hex
    obtain ⟨bp0, hmem, hm0, hc0⟩ := hex
    rcases List.mem_cons.mp hmem with rfl | hmem
    · show blockedRiskScalar name _ bps = 1
      simpa [hm0, hc0] using blockedRiskScalar_one name bps
    · show blockedRiskScalar name _ bps = 1
      exact ih _ (blockedStep_bounds name bp r h).2 ⟨bp0, hmem, hm0, hc0⟩

theorem blockedRiskScalar_atLeastPoint6 (name : String) :
    ∀ (bps : List BlockedPassage) (r : ℚ), r ≤ 1 →
      (∃ bp ∈ bps, lowerIn name bp.passage ∧ bp.severity ≠ "complete") →
      3 / 5 ≤ blockedRiskScalar name r bps := by
  intro bps
  induction bps with
  | nil => intro r _ hex; simp at hex
  | cons bp bps ih =>
    intro r h hex
    obtain ⟨bp0, hmem, hm0, hc0⟩ := hex
    rcases List.mem_cons.mp hmem with rfl | hmem
    · have hstep : (if lowerIn name bp0.passage then
          (if bp0.severity = "complete" then (1 : ℚ) else max r (3 / 5)) else r) =
          max r (3 / 5) := by simp [hm0, hc0]
      have hrw : blockedRiskScalar name r (bp0 :: bps) =
          blockedRiskScalar name (max r (3 / 5)) bps := by
        show blockedRiskScalar name (if lowerIn name bp0.passage then
          (if bp0.severity = "complete" then (1 : ℚ) else max r (3 / 5)) else r) bps = _
        rw [hstep]
      rw [hrw]
      have hb := blockedRiskScalar_bounds name bps (max r (3 / 5))
        (max_le h (by norm_num))
      exact le_trans (le_max_right _ _) hb.1
    · show 3 / 5 ≤ blockedRiskScalar name _ bps
      exact ih _ (blockedStep_bounds name bp r h).2 ⟨bp0, hmem, hm0, hc0⟩

theorem collapseMap_le_one (s : String) : collapseMap s ≤ 1 := by
  unfold collapseMap
  split_ifs <;> norm_num

/-- C5 amended: the structural overlay matches blocked-passage text to node
names by case-insensitive containment of the node name in the passage text
only (one direction); every matched node gets `structural_risk` 1 for
"complete" severity or at least 0.6 otherwise, every node's risk is raised
to at least the collapse-risk floor, and all edge weights are recomputed
from the updated attributes (assuming the data-model bound
`structural_risk ≤ 1` on the input graph). -/
theorem structural_overlay_one_directional (g : BGraph) (sd : StructuralData)
    (hrange : ∀ p ∈ g.nodes, p.2.structural_risk ≤ 1) :
    (∀ p ∈ (apply_structural_data g sd).nodes,
      collapseMap sd.collapse_risk ≤ p.2.structural_risk ∧
      ((∃ bp ∈ sd.blocked_passages, lowerIn p.1 bp.passage ∧ bp.severity = "complete") →
        p.2.structural_risk = 1) ∧
      ((∃ bp ∈ sd.blocked_passages, lowerIn p.1 bp.passage ∧ bp.severity ≠ "complete") →
        3 / 5 ≤ p.2.structural_risk)) ∧
    (∀ e ∈ (apply_structural_data g sd).edges,
      e.2.2 = weightFormula (attrOf (apply_structural_data g sd) e.2.1)) := by
  constructor
  · intro p hp
    have hnodes : (apply_structural_data g sd).nodes =
        applyCollapseFloor (applyBlockedPassages g.nodes sd.blocked_passages)
          (collapseMap sd.collapse_risk) := rfl
    rw [hnodes, applyBlocked_eq_map] at hp
    unfold applyCollapseFloor at hp
    rw [List.map_map] at hp
    obtain ⟨q, hq, rfl⟩ := List.mem_map.mp hp
    have hq1 : q.2.structural_risk ≤ 1 := hrange q hq
    refine ⟨le_max_right _ _, ?_, ?_⟩
    · intro hex
      show max (blockedRiskScalar q.1 q.2.structural_risk sd.blocked_passages)
        (collapseMap sd.collapse_risk) = 1
      rw [blockedRiskScalar_complete q.1 sd.blocked_passages _ hq1 hex]
      exact max_eq_left (collapseMap_le_one _)
    · intro hex
      show 3 / 5 ≤ max (blockedRiskScalar q.1 q.2.structural_risk sd.blocked_passages)
        (collapseMap sd.collapse_risk)
      exact le_trans (blockedRiskScalar_atLeastPoint6 q.1 sd.blocked_passages _ hq1 hex)
        (le_max_left _ _)
  · exact fun e he => recompute_edge_weight _ e he

/-- Witness for the amended C5 at a concrete graph: the matched node ends at
`structural_risk = 1`. -/
theorem structural_overlay_one_directional_witness :
    ("Lobby", ({ structural_risk := max 1 (1 / 10) } : NodeAttrs)) ∈
      (apply_structural_data gW sdW).nodes ∧
    ({ structural_risk := max 1 (1 / 10) } : NodeAttrs).structural_risk = 1 := by
  have hn : (apply_structural_data gW sdW).nodes =
      [("Lobby", ({ structural_risk := max 1 (1 / 10) } : NodeAttrs))] := rfl
  have hmem : ("Lobby", ({ structural_risk := max 1 (1 / 10) } : NodeAttrs)) ∈
      (apply_structural_data gW sdW).nodes := by
    rw [hn]; exact List.mem_cons_self _ _
  have hrange : ∀ p ∈ gW.nodes, p.2.structural_risk ≤ 1 := by
    intro p hp
    have : p = ("Lobby", attrsOfRoom { name := "Lobby" }) := by
      simpa [gW, build_building_graph, upsertNode] using hp
    rw [this]
    norm_num [attrsOfRoom]
  have h := (structural_overlay_one_directional gW sdW hrange).1 _ hmem
  refine ⟨hmem, h.2.1 ?_⟩
  exact ⟨{ passage := "the Lobby is blocked", severity := "complete" },
    List.mem_cons_self _ _, by decide, rfl⟩

/-! ## Claim C7 -/

theorem lookup_append (k : String) :
    ∀ (l1 l2 : List (String × TeamResult)),
      (l1 ++ l2).lookup k = (l1.lookup k).or (l2.lookup k) := by
  intro l1 l2
  induction l1 with
  | nil => rfl
  | cons p t ih =>
    obtain ⟨a, b⟩ := p
    by_cases h : k == a
    · simp [List.lookup, h]
    · simp [List.lookup, h, ih]

theorem waitPollStep_skip (snap : String → Option TeamResult)
    (ctx : List (String × TeamResult)) (b : Bool) (d : String)
    (h : (ctx.lookup d).isSome) : waitPollStep snap (ctx, b) d = (ctx, b) := by
  show (if (List.lookup d ctx).isSome = true then (ctx, b)
      else match snap d with
        | some r => (ctx ++ [(d, r)], b)
        | none => (ctx, false)) = (ctx, b)
  rw [h]
  rfl

theorem waitPollStep_found (snap : String → Option TeamResult)
    (ctx : List (String × TeamResult)) (b : Bool) (d : String) (r : TeamResult)
    (h1 : ctx.lookup d = none) (h2 : snap d = some r) :
    waitPollStep snap (ctx, b) d = (ctx ++ [(d, r)], b) := by
  show (if (List.lookup d ctx).isSome = true then (ctx, b)
      else match snap d with
        | some r => (ctx ++ [(d, r)], b)
        | none => (ctx, false)) = (ctx ++ [(d, r)], b)
  rw [h1, h2]
  rfl

theorem waitPollStep_missing (snap : String → Option TeamResult)
    (ctx : List (String × TeamResult)) (b : Bool) (d : String)
    (h1 : ctx.lookup d = none) (h2 : snap d = none) :
    waitPollStep snap (ctx, b) d = (ctx, false) := by
  show (if (List.lookup d ctx).isSome = true then (ctx, b)
      else match snap d with
        | some r => (ctx ++ [(d, r)], b)
        | none => (ctx, false)) = (ctx, false)
  rw [h1, h2]
  rfl

theorem waitStep_fold_spec (snap : String → Option TeamResult) :
    ∀ (deps : List String) (ctx : List (String × TeamResult)) (b : Bool),
      (∀ x, (ctx.lookup x).isSome →
        (deps.foldl (waitPollStep snap) (ctx, b)).1.lookup x = ctx.lookup x) ∧
      (∀ x ∈ deps, ctx.lookup x = none → (snap x).isSome →
        (deps.foldl (waitPollStep snap) (ctx, b)).1.lookup x = snap x) ∧
      ((∀ x ∈ deps, (ctx.lookup x).isSome ∨ (snap x).isSome) →
        (deps.foldl (waitPollStep snap) (ctx, b)).2 = b) := by
  intro deps
  induction deps with
  | nil =>
    intro ctx b
    exact ⟨fun x hx => rfl, fun x hx => absurd hx (List.not_mem_nil x), fun _ => rfl⟩
  | cons d deps ih =>
    intro ctx b
    by_cases h1 : (ctx.lookup d).isSome
    · rw [List.foldl_cons, waitPollStep_skip snap ctx b d h1]
      refine ⟨(ih ctx b).1, ?_, ?_⟩
      · intro x hx hnone hsnap
        rcases List.mem_cons.mp hx with rfl | hx
        · rw [hnone] at h1; simp at h1
        · exact (ih ctx b).2.1 x hx hnone hsnap
      · intro hall
        exact (ih ctx b).2.2 (fun x hx => hall x (List.mem_cons_of_mem _ hx))
    · have h1' : ctx.lookup d = none := Option.not_isSome_iff_eq_none.mp h1
      cases h2 : snap d with
      | some r =>
        rw [List.foldl_cons, waitPollStep_found snap ctx b d r h1' h2]
        have hkeep : ∀ x, (ctx.lookup x).isSome →
            ((ctx ++ [(d, r)]).lookup x) = ctx.lookup x := by
          intro x hx
          rw [lookup_append]
          obtain ⟨v, hv⟩ := Option.isSome_iff_exists.mp hx
          rw [hv]; rfl
        have hnew : (ctx ++ [(d, r)]).lookup d = some r := by
          rw [lookup_append, h1']
          show List.lookup d [(d, r)] = some r
          simp [List.lookup]
        refine ⟨?_, ?_, ?_⟩
        · intro x hx
          rw [(ih (ctx ++ [(d, r)]) b).1 x (by rw [hkeep x hx]; exact hx)]
          exact hkeep x hx
        · intro x hx hnone hsnap
          rcases List.mem_cons.mp hx with rfl | hx
          · rw [(ih (ctx ++ [(x, r)]) b).1 x (by rw [hnew]; rfl), hnew, h2]
          · by_cases hdx : x == d
            · have hxd : x = d := eq_of_beq hdx
              subst hxd
              rw [(ih (ctx ++ [(x, r)]) b).1 x (by rw [hnew]; rfl), hnew, h2]
            · have hmiss : (ctx ++ [(d, r)]).lookup x = none := by
                rw [lookup_append, hnone]
                show List.lookup x [(d, r)] = none
                simp [List.lookup, hdx]
              exact (ih (ctx ++ [(d, r)]) b).2.1 x hx hmiss hsnap
        · intro hall
          apply (ih (ctx ++ [(d, r)]) b).2.2
          intro x hx
          rcases hall x (List.mem_cons_of_mem _ hx) with hc | hs
          · exact Or.inl (by rw [hkeep x hc]; exact hc)
          · exact Or.inr hs
      | none =>
        rw [List.foldl_cons, waitPollStep_missing snap ctx b d h1' h2]
        refine ⟨(ih ctx false).1, ?_, ?_⟩
        · intro x hx hnone hsnap
          rcases List.mem_cons.mp hx with rfl | hx
          · rw [h2] at hsnap; simp at hsnap
          · exact (ih ctx false).2.1 x hx hnone hsnap
        · intro hall
          rcases hall d (List.mem_cons_self _ _) with hc | hs
          · exact absurd hc h1
          · rw [h2] at hs; simp at hs

theorem waitStep_allNone_aux (snap : String → Option TeamResult)
    (h : ∀ d, snap d = none) :
    ∀ deps : List String, deps.foldl (waitPollStep snap) ([], false) = ([], false) := by
  intro deps
  induction deps with
  | nil => rfl
  | cons d deps ih =>
    rw [List.foldl_cons, waitPollStep_missing snap [] false d rfl (h d)]
    exact ih

theorem waitStep_allNone (snap : String → Option TeamResult)
    (h : ∀ d, snap d = none) :
    ∀ deps : List String, deps ≠ [] →
      deps.foldl (waitPollStep snap) ([], true) = ([], false) := by
  intro deps hne
  cases deps with
  | nil => exact absurd rfl hne
  | cons d deps =>
    rw [List.foldl_cons, waitPollStep_missing snap [] true d rfl (h d)]
    exact waitStep_allNone_aux snap h deps

theorem time_lower_bound (time : ℕ → ℚ) (h0 : 0 ≤ time 0)
    (hstep : ∀ k : ℕ, time k + 1 / 2 ≤ time (k + 1)) : ∀ k : ℕ, (k : ℚ) / 2 ≤ time k := by
  intro k
  induction k with
  | zero => simpa using h0
  | succ k ih =>
    have := hstep k
    push_cast
    push_cast at ih
    linarith

theorem waitLoop_isSome (deps : List String) (store : ℕ → String → Option TeamResult)
    (time : ℕ → ℚ) (hlb : ∀ k : ℕ, (k : ℚ) / 2 ≤ time k) :
    ∀ (fuel k : ℕ) (ctx : List (String × TeamResult)), 62 ≤ fuel + k → k ≤ 61 →
      (waitLoop deps store time fuel k ctx).isSome := by
  intro fuel
  induction fuel with
  | zero => intro k ctx h1 h2; omega
  | succ fuel ih =>
    intro k ctx h1 h2
    show (if (waitStep deps (store k) ctx).2 then some (waitStep deps (store k) ctx).1
      else if time k > UPSTREAM_TIMEOUT then some (waitStep deps (store k) ctx).1
      else waitLoop deps store time fuel (k + 1) (waitStep deps (store k) ctx).1).isSome
    by_cases hs : (waitStep deps (store k) ctx).2
    · rw [if_pos hs]; rfl
    · rw [if_neg hs]
      by_cases ht : time k > UPSTREAM_TIMEOUT
      · rw [if_pos ht]; rfl
      · rw [if_neg ht]
        have h30 : time k ≤ 30 := not_lt.mp ht
        have hk60 : k ≤ 60 := by
          have := hlb k
          have hq : (k : ℚ) ≤ 60 := by linarith
          exact_mod_cast hq
        exact ih (k + 1) _ (by omega) (by omega)

theorem waitLoop_allNone (deps : List String) (store : ℕ → String → Option TeamResult)
    (time : ℕ → ℚ) (hstore : ∀ k d, store k d = none)
    (hlb : ∀ k : ℕ, (k : ℚ) / 2 ≤ time k) (hne : deps ≠ []) :
    ∀ (fuel k : ℕ), 62 ≤ fuel + k → k ≤ 61 →
      waitLoop deps store time fuel k [] = some [] := by
  intro fuel
  induction fuel with
  | zero => intro k h1 h2; omega
  | succ fuel ih =>
    intro k h1 h2
    have hws : waitStep deps (store k) [] = ([], false) :=
      waitStep_allNone (store k) (fun d => hstore k d) deps hne
    show (if (waitStep deps (store k) []).2 then some (waitStep deps (store k) []).1
      else if time k > UPSTREAM_TIMEOUT then some (waitStep deps (store k) []).1
      else waitLoop deps store time fuel (k + 1) (waitStep deps (store k) []).1) = some []
    rw [hws]
    rw [if_neg (by simp)]
    by_cases ht : time k > UPSTREAM_TIMEOUT
    · rw [if_pos ht]
    · rw [if_neg ht]
      have h30 : time k ≤ 30 := not_lt.mp ht
      have hk60 : k ≤ 60 := by
        have := hlb k
        have hq : (k : ℚ) ≤ 60 := by linarith
        exact_mod_cast hq
      exact ih (k + 1) (by omega) (by omega)

/-- Claim C7: the upstream-wait loop (elapsed time abstracted as a sequence
that every sleep advances by at least the 0.5 s poll interval) always
terminates within 62 polls; when every dependency is already published it
returns the full upstream context; when a dependency never appears it
returns the empty partial context once the 30 s timeout has elapsed; and
`run_hybrid` then always proceeds through merge and consensus and publishes
with final team status "complete". -/
theorem upstream_wait_spec (deps : List String) (store : ℕ → String → Option TeamResult)
    (time : ℕ → ℚ) (h0 : 0 ≤ time 0)
    (hstep : ∀ k, time k + UPSTREAM_POLL_INTERVAL ≤ time (k + 1)) :
    (∀ fuel, 62 ≤ fuel → (wait_for_upstream deps store time fuel).isSome) ∧
    ((∀ d ∈ deps, (store 0 d).isSome) → ∀ fuel, 1 ≤ fuel →
      ∃ ctx, wait_for_upstream deps store time fuel = some ctx ∧
        ∀ d ∈ deps, ctx.lookup d = store 0 d) ∧
    ((∀ k d, store k d = none) → ∀ fuel, 62 ≤ fuel →
      wait_for_upstream deps store time fuel = some []) ∧
    (∀ (instances frames : List String) (analyzeFn : String → String → TeamResult)
      (mergeFn : TeamResult → List (String × TeamResult) → TeamResult) (fuel : ℕ),
      62 ≤ fuel →
      ∃ c, run_hybrid instances frames deps store time fuel analyzeFn mergeFn =
        some (c, "complete")) := by
  have hlb : ∀ k : ℕ, (k : ℚ) / 2 ≤ time k := time_lower_bound time h0 (fun k => hstep k)
  have hterm : ∀ fuel, 62 ≤ fuel → (wait_for_upstream deps store time fuel).isSome := by
    intro fuel hf
    unfold wait_for_upstream
    by_cases hd : deps.isEmpty
    · rw [if_pos hd]; rfl
    · rw [if_neg hd]
      exact waitLoop_isSome deps store time hlb fuel 0 [] (by omega) (by omega)
  refine ⟨hterm, ?_, ?_, ?_⟩
  · intro hall fuel hf
    by_cases hd : deps.isEmpty
    · refine ⟨[], ?_, ?_⟩
      · unfold wait_for_upstream; rw [if_pos hd]
      · intro d hdmem
        rw [List.isEmpty_iff] at hd
        subst hd
        exact absurd hdmem (List.not_mem_nil d)
    · obtain ⟨fuel2, rfl⟩ : ∃ f, fuel = f + 1 := ⟨fuel - 1, by omega⟩
      have hspec := waitStep_fold_spec (store 0) deps [] true
      have hflag : (waitStep deps (store 0) []).2 = true :=
        hspec.2.2 (fun x hx => Or.inr (hall x hx))
      refine ⟨(waitStep deps (store 0) []).1, ?_, ?_⟩
      · unfold wait_for_upstream
        rw [if_neg hd]
        show (if (waitStep deps (store 0) []).2 then some (waitStep deps (store 0) []).1
          else if time 0 > UPSTREAM_TIMEOUT then some (waitStep deps (store 0) []).1
          else waitLoop deps store time fuel2 1 (waitStep deps (store 0) []).1) = _
        rw [if_pos hflag]
      · intro d hdmem
        exact hspec.2.1 d hdmem rfl (hall d hdmem)
  · intro hstore fuel hf
    unfold wait_for_upstream
    by_cases hd : deps.isEmpty
    · rw [if_pos hd]
    · rw [if_neg hd]
      have hne : deps ≠ [] := fun h => hd (by rw [h]; rfl)
      exact waitLoop_allNone deps store time hstore hlb hne fuel 0 (by omega) (by omega)
  · intro instances frames analyzeFn mergeFn fuel hf
    obtain ⟨ctx, hctx⟩ := Option.isSome_iff_exists.mp (hterm fuel hf)
    refine ⟨compute_consensus
      ((instances.foldl (fun acc i => acc ++ frames.map (analyzeFn i)) []).map
        (fun r => mergeFn r ctx)), ?_⟩
    unfold run_hybrid
    rw [hctx]

/-- Witness for C7: one dependency that never appears, the elapsed-time
sequence advancing exactly half a second per poll. -/
theorem upstream_wait_spec_witness :
    (wait_for_upstream ["fire_severity"] (fun _ _ => none) (fun k => (k : ℚ) / 2)
      62).isSome ∧
    wait_for_upstream ["fire_severity"] (fun _ _ => none) (fun k => (k : ℚ) / 2) 62 =
      some [] ∧
    run_hybrid [] [] ["fire_severity"] (fun _ _ => none) (fun k => (k : ℚ) / 2) 62
      (fun _ _ => {}) (fun r _ => r) = some ({}, "complete") := by
  have h := upstream_wait_spec ["fire_severity"] (fun _ _ => none)
    (fun k => (k : ℚ) / 2) (by norm_num)
    (by intro k; unfold UPSTREAM_POLL_INTERVAL; push_cast; linarith)
  have hwait := h.2.2.1 (fun _ _ => rfl) 62 (by norm_num)
  refine ⟨h.1 62 (by norm_num), hwait, ?_⟩
  unfold run_hybrid
  rw [hwait]
  rfl

/-! ## Claim C8 -/

/-- Claim C8: with fire severity 9, at least three (distinct) fire locations
and a structural integrity score of at most 4, the personnel recommendation
escalates to alarm level at least 4 and at least 28 firefighters. -/
theorem personnel_escalation (ctx : PContext) (fire : PFireData) (st : PStructData)
    (hf : ctx.fire_severity = some fire) (hs : ctx.structural = some st)
    (hsev : fire.severity = some 9)
    (hnd : (fire.fire_locations.map FireLocation.label).Nodup)
    (hlocs : fire.fire_locations.length ≥ 3)
    (s : ℤ) (hint : st.integrity_score = some s) (hs4 : s ≤ 4) :
    4 ≤ (recommend_personnel (some ctx)).alarm_level ∧
    28 ≤ (recommend_personnel (some ctx)).firefighters := by
  have halarm : determine_alarm_level 9 fire.fire_locations.length (some s) = 5 := by
    simp only [determine_alarm_level]
    rw [if_pos hs4, if_pos hlocs]
    decide
  simp only [recommend_personnel, Option.getD_some, hf, hs, hsev, hint, halarm]
  decide

/-- Witness for C8 at the concrete context. -/
theorem personnel_escalation_witness :
    4 ≤ (recommend_personnel
      (some { fire_severity := some wFireC8, structural := some wStructC8 })).alarm_level ∧
    28 ≤ (recommend_personnel
      (some { fire_severity := some wFireC8, structural := some wStructC8 })).firefighters :=
  personnel_escalation _ wFireC8 wStructC8 rfl rfl rfl (by decide) (by decide) 4 rfl
    (by decide)

/-! ## Claim C10 -/

theorem matchedIntensity_eq_zero (fire_locations : List FireLocation) (name : String)
    (h : ∀ fl ∈ fire_locations, matchLabel name fl.label = false) :
    matchedIntensity fire_locations name = 0 := by
  unfold matchedIntensity
  induction fire_locations with
  | nil => rfl
  | cons fl fls ih =>
    rw [List.foldl_cons]
    have hfl : matchLabel name fl.label = false := h fl (List.mem_cons_self _ _)
    rw [show (if matchLabel name fl.label then max (0 : ℚ) fl.intensity else 0) = 0 by
      rw [hfl]; rfl]
    exact ih (fun x hx => h x (List.mem_cons_of_mem _ hx))

theorem initialIntensity_no_match (fire_locations : List FireLocation) (severity : ℚ)
    (name : String) (h : ∀ fl ∈ fire_locations, matchLabel name fl.label = false) :
    initialIntensity fire_locations severity name =
      (if 5 ≤ severity then severity / 20 else 0) := by
  unfold initialIntensity
  rw [matchedIntensity_eq_zero fire_locations name h]
  by_cases h5 : 5 ≤ severity
  · rw [if_pos ⟨rfl, h5⟩, if_pos h5]
  · rw [if_neg (fun hc => h5 hc.2), if_neg h5]

/-- Claim C10 (implicit ambient-heat rule): in `build_spread_timeline` and in
the survivability computation (both build rooms via `timelineRooms`), a room
matching no fire-location label starts at intensity `severity / 20` when the
reported severity is at least 5 and at 0 otherwise; in particular, with no
fire locations and severity at least 5, every room starts strictly positive. -/
theorem ambient_heat (fire : FireSeverityData) (rooms_data : List RoomData)
    (rd : RoomData) (hrd : rd ∈ rooms_data)
    (hnomatch : ∀ fl ∈ fire.fire_locations, matchLabel rd.name fl.label = false) :
    build_spread_timeline fire rooms_data =
      predict_fire_spread (timelineRooms fire rooms_data) 10 ∧
    (∃ room ∈ timelineRooms fire rooms_data, room.name = rd.name ∧
      room.fire_intensity = (if 5 ≤ fire.severity then fire.severity / 20 else 0)) ∧
    (fire.fire_locations = [] → 5 ≤ fire.severity →
      ∀ room ∈ timelineRooms fire rooms_data, 0 < room.fire_intensity) := by
  refine ⟨rfl, ?_, ?_⟩
  · refine ⟨_, List.mem_map_of_mem _ hrd, rfl, ?_⟩
    exact initialIntensity_no_match fire.fire_locations fire.severity rd.name hnomatch
  · intro hempty h5 room hroom
    obtain ⟨rd2, hrd2, rfl⟩ := List.mem_map.mp hroom
    show 0 < initialIntensity fire.fire_locations fire.severity rd2.name
    rw [initialIntensity_no_match fire.fire_locations fire.severity rd2.name
      (by rw [hempty]; intro fl hfl; exact absurd hfl (List.not_mem_nil fl))]
    rw [if_pos h5]
    linarith

/-- Witness for C10: with severity 9 and no fire locations the lone room
starts strictly positive. -/
theorem ambient_heat_witness :
    wtRoom ∈ timelineRooms wFireC10 wRoomsC10 ∧ 0 < wtRoom.fire_intensity := by
  have hmem : wtRoom ∈ timelineRooms wFireC10 wRoomsC10 := by
    have : timelineRooms wFireC10 wRoomsC10 = [wtRoom] := rfl
    rw [this]
    exact List.mem_cons_self _ _
  refine ⟨hmem, ?_⟩
  exact (ambient_heat wFireC10 wRoomsC10 { name := "Lobby" } (List.mem_cons_self _ _)
    (fun fl hfl => absurd hfl (List.not_mem_nil fl))).2.2 rfl (by norm_num [wFireC10])
    wtRoom hmem

/-! ## Claim C9 -/

theorem survStepWorst_ed (s : Option String × ℚ × Option ℕ) (pred : SpreadPrediction) :
    (survStepWorst s pred).2.2 = s.2.2 := by
  unfold survStepWorst
  split_ifs <;> rfl

theorem survStep_skip (path : List String) (s : Option String × ℚ × Option ℕ)
    (pred : SpreadPrediction) (hin : path.contains pred.room_name = false) :
    survStep path s pred = s := by
  unfold survStep
  rw [hin]
  rfl

theorem survStep_in (path : List String) (s : Option String × ℚ × Option ℕ)
    (pred : SpreadPrediction) (hin : path.contains pred.room_name = true) :
    survStep path s pred = survStepWorst (survStepDanger s pred) pred := by
  unfold survStep
  rw [hin]
  rfl

theorem survStepDanger_none (s : Option String × ℚ × Option ℕ)
    (pred : SpreadPrediction) (htt : pred.time_to_danger_min = none) :
    survStepDanger s pred = s := by
  unfold survStepDanger
  rw [htt]

theorem survStepDanger_fresh (s : Option String × ℚ × Option ℕ)
    (pred : SpreadPrediction) (t : ℕ) (htt : pred.time_to_danger_min = some t)
    (hs : s.2.2 = none) :
    survStepDanger s pred = (some pred.room_name, pred.current_intensity, some t) := by
  unfold survStepDanger
  rw [htt, hs]

theorem survStepDanger_better (s : Option String × ℚ × Option ℕ)
    (pred : SpreadPrediction) (t m : ℕ) (htt : pred.time_to_danger_min = some t)
    (hs : s.2.2 = some m) (htm : t < m) :
    survStepDanger s pred = (some pred.room_name, pred.current_intensity, some t) := by
  unfold survStepDanger
  rw [htt, hs]
  show (if t < m then (some pred.room_name, pred.current_intensity, some t) else s) = _
  rw [if_pos htm]

theorem survStepDanger_keep (s : Option String × ℚ × Option ℕ)
    (pred : SpreadPrediction) (t m : ℕ) (htt : pred.time_to_danger_min = some t)
    (hs : s.2.2 = some m) (htm : ¬ t < m) :
    survStepDanger s pred = s := by
  unfold survStepDanger
  rw [htt, hs]
  show (if t < m then (some pred.room_name, pred.current_intensity, some t) else s) = s
  rw [if_neg htm]

theorem survStep_ed_none (path : List String) (s : Option String × ℚ × Option ℕ)
    (pred : SpreadPrediction) (hin : path.contains pred.room_name = true)
    (htt : pred.time_to_danger_min = none) :
    (survStep path s pred).2.2 = s.2.2 := by
  rw [survStep_in path s pred hin, survStepWorst_ed, survStepDanger_none s pred htt]

theorem survStep_ed_fresh (path : List String) (s : Option String × ℚ × Option ℕ)
    (pred : SpreadPrediction) (t : ℕ) (hin : path.contains pred.room_name = true)
    (htt : pred.time_to_danger_min = some t) (hs : s.2.2 = none) :
    (survStep path s pred).2.2 = some t := by
  rw [survStep_in path s pred hin, survStepWorst_ed,
    survStepDanger_fresh s pred t htt hs]

theorem survStep_ed_better (path : List String) (s : Option String × ℚ × Option ℕ)
    (pred : SpreadPrediction) (t m : ℕ) (hin : path.contains pred.room_name = true)
    (htt : pred.time_to_danger_min = some t) (hs : s.2.2 = some m) (htm : t < m) :
    (survStep path s pred).2.2 = some t := by
  rw [survStep_in path s pred hin, survStepWorst_ed,
    survStepDanger_better s pred t m htt hs htm]

theorem survStep_ed_keep (path : List String) (s : Option String × ℚ × Option ℕ)
    (pred : SpreadPrediction) (t m : ℕ) (hin : path.contains pred.room_name = true)
    (htt : pred.time_to_danger_min = some t) (hs : s.2.2 = some m) (htm : ¬ t < m) :
    (survStep path s pred).2.2 = some m := by
  rw [survStep_in path s pred hin, survStepWorst_ed,
    survStepDanger_keep s pred t m htt hs htm, hs]

theorem dangersOf_cons_skip (path : List String) (pred : SpreadPrediction)
    (preds : List SpreadPrediction) (hin : path.contains pred.room_name = false) :
    dangersOf path (pred :: preds) = dangersOf path preds := by
  unfold dangersOf
  rw [List.filter_cons_of_neg (by simpa using hin)]

theorem dangersOf_cons_none (path : List String) (pred : SpreadPrediction)
    (preds : List SpreadPrediction) (hin : path.contains pred.room_name = true)
    (htt : pred.time_to_danger_min = none) :
    dangersOf path (pred :: preds) = dangersOf path preds := by
  unfold dangersOf
  rw [List.filter_cons_of_pos (by simpa using hin), List.filterMap_cons, htt]

theorem dangersOf_cons_some (path : List String) (pred : SpreadPrediction)
    (preds : List SpreadPrediction) (t : ℕ) (hin : path.contains pred.room_name = true)
    (htt : pred.time_to_danger_min = some t) :
    dangersOf path (pred :: preds) = t :: dangersOf path preds := by
  unfold dangersOf
  rw [List.filter_cons_of_pos (by simpa using hin), List.filterMap_cons, htt]

theorem foldl_surv_ed_none (path : List String) :
    ∀ (preds : List SpreadPrediction) (s : Option String × ℚ × Option ℕ),
      ((preds.foldl (survStep path) s).2.2 = none ↔
        (s.2.2 = none ∧ dangersOf path preds = [])) := by
  intro preds
  induction preds with
  | nil => intro s; simp [dangersOf]
  | cons pred preds ih =>
    intro s
    rw [List.foldl_cons]
    by_cases hin : path.contains pred.room_name
    · cases htt : pred.time_to_danger_min with
      | none =>
        rw [ih (survStep path s pred), survStep_ed_none path s pred hin htt,
          dangersOf_cons_none path pred preds hin htt]
      | some t =>
        rw [ih (survStep path s pred), dangersOf_cons_some path pred preds t hin htt]
        constructor
        · intro ⟨h1, _⟩
          exfalso
          cases hs : s.2.2 with
          | none => rw [survStep_ed_fresh path s pred t hin htt hs] at h1; cases h1
          | some m =>
            by_cases htm : t < m
            · rw [survStep_ed_better path s pred t m hin htt hs htm] at h1; cases h1
            · rw [survStep_ed_keep path s pred t m hin htt hs htm] at h1; cases h1
        · intro ⟨_, h2⟩
          cases h2
    · have hin' : path.contains pred.room_name = false := eq_false_of_ne_true hin
      rw [survStep_skip path s pred hin', ih s, dangersOf_cons_skip path pred preds hin']

theorem foldl_surv_ed_some (path : List String) :
    ∀ (preds : List SpreadPrediction) (s : Option String × ℚ × Option ℕ) (e : ℕ),
      (preds.foldl (survStep path) s).2.2 = some e →
        ((s.2.2 = some e ∨ e ∈ dangersOf path preds) ∧
         (∀ x, s.2.2 = some x → e ≤ x) ∧
         (∀ x ∈ dangersOf path preds, e ≤ x)) := by
  intro preds
  induction preds with
  | nil =>
    intro s e h
    have h' : s.2.2 = some e := h
    refine ⟨Or.inl h', ?_, ?_⟩
    · intro x hx
      rw [h'] at hx
      cases hx
      exact le_refl e
    · intro x hx
      exact absurd hx (by simp [dangersOf])
  | cons pred preds ih =>
    intro s e h
    rw [List.foldl_cons] at h
    by_cases hin : path.contains pred.room_name
    · cases htt : pred.time_to_danger_min with
      | none =>
        obtain ⟨hmem, hbs, hbd⟩ := ih (survStep path s pred) e h
        rw [survStep_ed_none path s pred hin htt] at hmem hbs
        rw [dangersOf_cons_none path pred preds hin htt]
        exact ⟨hmem, hbs, hbd⟩
      | some t =>
        obtain ⟨hmem, hbs, hbd⟩ := ih (survStep path s pred) e h
        rw [dangersOf_cons_some path pred preds t hin htt]
        cases hs : s.2.2 with
        | none =>
          have hval : (survStep path s pred).2.2 = some t :=
            survStep_ed_fresh path s pred t hin htt hs
          have het : e ≤ t := hbs t hval
          refine ⟨?_, ?_, ?_⟩
          · rcases hmem with hm | hm
            · rw [hval] at hm
              cases hm
              exact Or.inr (List.mem_cons_self _ _)
            · exact Or.inr (List.mem_cons_of_mem _ hm)
          · intro x hx
            cases hx
          · intro x hx
            rcases List.mem_cons.mp hx with rfl | hx
            · exact het
            · exact hbd x hx
        | some m =>
          by_cases htm : t < m
          · have hval : (survStep path s pred).2.2 = some t :=
              survStep_ed_better path s pred t m hin htt hs htm
            have het : e ≤ t := hbs t hval
            refine ⟨?_, ?_, ?_⟩
            · rcases hmem with hm | hm
              · rw [hval] at hm
                cases hm
                exact Or.inr (List.mem_cons_self _ _)
              · exact Or.inr (List.mem_cons_of_mem _ hm)
            · intro x hx
              cases hx
              omega
            · intro x hx
              rcases List.mem_cons.mp hx with rfl | hx
              · exact het
              · exact hbd x hx
          · have hval : (survStep path s pred).2.2 = some m :=
              survStep_ed_keep path s pred t m hin htt hs htm
            have hem : e ≤ m := hbs m hval
            refine ⟨?_, ?_, ?_⟩
            · rcases hmem with hm | hm
              · rw [hval] at hm
                cases hm
                exact Or.inl rfl
              · exact Or.inr (List.mem_cons_of_mem _ hm)
            · intro x hx
              cases hx
              exact hem
            · intro x hx
              rcases List.mem_cons.mp hx with rfl | hx
              · omega
              · exact hbd x hx
    · have hin' : path.contains pred.room_name = false := eq_false_of_ne_true hin
      rw [survStep_skip path s pred hin'] at h
      obtain ⟨hmem, hbs, hbd⟩ := ih s e h
      rw [dangersOf_cons_skip path pred preds hin']
      exact ⟨hmem, hbs, hbd⟩

theorem survStepWorst_inv (A : SpreadPrediction → Prop) (path : List String)
    (s : Option String × ℚ × Option ℕ) (pred : SpreadPrediction)
    (hI : ∀ e, s.2.2 = some e → ∃ q, A q ∧ path.contains q.room_name = true ∧
      q.time_to_danger_min = some e ∧ s.1 = some q.room_name) :
    ∀ e, (survStepWorst s pred).2.2 = some e → ∃ q, A q ∧
      path.contains q.room_name = true ∧ q.time_to_danger_min = some e ∧
      (survStepWorst s pred).1 = some q.room_name := by
  intro e he
  unfold survStepWorst at he ⊢
  by_cases hc : s.2.1 < pred.current_intensity ∧ s.1 = none
  · rw [if_pos hc] at he
    obtain ⟨q, _, _, _, hq⟩ := hI e he
    rw [hq] at hc
    cases hc.2
  · rw [if_neg hc] at he ⊢
    exact hI e he

/-- One-step preservation of the worst-room invariant. -/
theorem survStep_inv (A : SpreadPrediction → Prop) (path : List String)
    (s : Option String × ℚ × Option ℕ) (pred : SpreadPrediction) (hA : A pred)
    (hI : ∀ e, s.2.2 = some e → ∃ q, A q ∧ path.contains q.room_name = true ∧
      q.time_to_danger_min = some e ∧ s.1 = some q.room_name) :
    ∀ e, (survStep path s pred).2.2 = some e → ∃ q, A q ∧
      path.contains q.room_name = true ∧ q.time_to_danger_min = some e ∧
      (survStep path s pred).1 = some q.room_name := by
  by_cases hin : path.contains pred.room_name
  · rw [survStep_in path s pred hin]
    apply survStepWorst_inv A path (survStepDanger s pred) pred
    intro e he
    cases htt : pred.time_to_danger_min with
    | none =>
      rw [survStepDanger_none s pred htt] at he ⊢
      exact hI e he
    | some t =>
      cases hs : s.2.2 with
      | none =>
        rw [survStepDanger_fresh s pred t htt hs] at he ⊢
        have he' : some t = some e := he
        cases he'
        exact ⟨pred, hA, hin, htt, rfl⟩
      | some m =>
        by_cases htm : t < m
        · rw [survStepDanger_better s pred t m htt hs htm] at he ⊢
          have he' : some t = some e := he
          cases he'
          exact ⟨pred, hA, hin, htt, rfl⟩
        · rw [survStepDanger_keep s pred t m htt hs htm] at he ⊢
          exact hI e he
  · have hin' : path.contains pred.room_name = false := eq_false_of_ne_true hin
    rw [survStep_skip path s pred hin']
    exact hI

theorem foldl_surv_worst (A : SpreadPrediction → Prop) (path : List String) :
    ∀ (preds : List SpreadPrediction) (s : Option String × ℚ × Option ℕ),
      (∀ p ∈ preds, A p) →
      (∀ e, s.2.2 = some e → ∃ q, A q ∧ path.contains q.room_name = true ∧
        q.time_to_danger_min = some e ∧ s.1 = some q.room_name) →
      ∀ e, (preds.foldl (survStep path) s).2.2 = some e → ∃ q, A q ∧
        path.contains q.room_name = true ∧ q.time_to_danger_min = some e ∧
        (preds.foldl (survStep path) s).1 = some q.room_name := by
  intro preds
  induction preds with
  | nil => intro s _ hI; exact hI
  | cons pred preds ih =>
    intro s hall hI
    rw [List.foldl_cons]
    exact ih (survStep path s pred) (fun p hp => hall p (List.mem_cons_of_mem _ hp))
      (survStep_inv A path s pred (hall pred (List.mem_cons_self _ _)) hI)

/-- Claim C9: for a non-empty path the survivability window reports as
`minutes_remaining` the earliest `time_to_danger` over the path rooms of the
30-minute simulation (`none` when no path room ever crosses), `viable` is
true exactly when `minutes_remaining` is `none` or positive, and the worst
room named is a path room achieving that earliest crossing; the empty path
yields `minutes_remaining = 0`, not viable. -/
theorem survivability_spec (path : List String) (fire : FireSeverityData)
    (rooms_data : List RoomData) :
    (path = [] → compute_survivability_window path fire rooms_data =
      { minutes_remaining := some 0, viable := false, worst_room := none,
        worst_room_intensity := 0 }) ∧
    (path ≠ [] →
      ((compute_survivability_window path fire rooms_data).minutes_remaining = none ↔
        dangersOf path (survPreds fire rooms_data) = []) ∧
      (∀ e, (compute_survivability_window path fire rooms_data).minutes_remaining =
          some e →
        (e ∈ dangersOf path (survPreds fire rooms_data) ∧
         ∀ x ∈ dangersOf path (survPreds fire rooms_data), e ≤ x)) ∧
      ((compute_survivability_window path fire rooms_data).viable = true ↔
        ((compute_survivability_window path fire rooms_data).minutes_remaining = none ∨
         ∃ e, (compute_survivability_window path fire rooms_data).minutes_remaining =
            some e ∧ 0 < e)) ∧
      (∀ e, (compute_survivability_window path fire rooms_data).minutes_remaining =
          some e →
        ∃ q ∈ survPreds fire rooms_data, path.contains q.room_name = true ∧
          q.time_to_danger_min = some e ∧
          (compute_survivability_window path fire rooms_data).worst_room =
            some q.room_name)) := by
  constructor
  · intro hempty
    subst hempty
    rfl
  · intro hne
    have hnonempty : path.isEmpty = false := by
      cases path with
      | nil => exact absurd rfl hne
      | cons a l => rfl
    have hw : compute_survivability_window path fire rooms_data =
        { minutes_remaining :=
            ((survPreds fire rooms_data).foldl (survStep path) (none, 0, none)).2.2
          viable :=
            match ((survPreds fire rooms_data).foldl (survStep path) (none, 0, none)).2.2 with
            | none => true
            | some e => decide (0 < e)
          worst_room :=
            ((survPreds fire rooms_data).foldl (survStep path) (none, 0, none)).1
          worst_room_intensity := round_dp 3
            ((survPreds fire rooms_data).foldl (survStep path) (none, 0, none)).2.1 } := by
      unfold compute_survivability_window
      rw [hnonempty]
      rfl
    rw [hw]
    refine ⟨?_, ?_, ?_, ?_⟩
    · rw [foldl_surv_ed_none path (survPreds fire rooms_data) (none, 0, none)]
      simp
    · intro e he
      obtain ⟨hmem, _, hbd⟩ :=
        foldl_surv_ed_some path (survPreds fire rooms_data) (none, 0, none) e he
      rcases hmem with hm | hm
      · cases hm
      · exact ⟨hm, hbd⟩
    · cases hcase : ((survPreds fire rooms_data).foldl (survStep path) (none, 0, none)).2.2 with
      | none => simp
      | some e => simp
    · intro e he
      obtain ⟨q, hqA, hqin, hqt, hqw⟩ :=
        foldl_surv_worst (fun p => p ∈ survPreds fire rooms_data) path
          (survPreds fire rooms_data) (none, 0, none) (fun p hp => hp)
          (fun e he => by cases he) e he
      exact ⟨q, hqA, hqin, hqt, hqw⟩

/-- Witness for C9 at a concrete path, fire result and layout. -/
theorem survivability_spec_witness :
    compute_survivability_window [] wFireC10 wRoomsC10 =
      { minutes_remaining := some 0, viable := false, worst_room := none,
        worst_room_intensity := 0 } ∧
    ((compute_survivability_window ["Lobby"] wFireC10 wRoomsC10).minutes_remaining =
        none ↔
      dangersOf ["Lobby"] (survPreds wFireC10 wRoomsC10) = []) := by
  exact ⟨(survivability_spec [] wFireC10 wRoomsC10).1 rfl,
    ((survivability_spec ["Lobby"] wFireC10 wRoomsC10).2 (by simp)).1⟩

end Orca
